import Mathlib

/-!
# Verification of the go-rosbag streaming decoder

A shallow embedding of the rosbag-2.0 decoder (package `rosbag`): the
record framer and header-field scanner (`rosbag.go`), the streaming
decoder driver (`decoder.go`), the `.msg` message-definition parser and
message-data decoder (`message.go`), and the primitive field codecs
(`field_decoder.go`).

Conventions of the embedding:
* Bytes are `Nat` (each value < 256 where produced by encoders); byte
  streams are `List Byte` consumed from the front.
* Go slice indexing / sub-slicing out of range, which panics at runtime,
  is modelled by the distinguished result `Res.panics` (or `Option.none`
  for primitive helpers such as `leUint32?`).
* Go `error` values are the inductive `GoErr`; `io.EOF` is `GoErr.eof`.
* Go maps keyed by `uint32` are association lists where an insert conses
  in front and lookup takes the first hit, which reproduces Go's
  "later insert replaces" observable behaviour.
-/

namespace Rosbag

abbrev Byte := Nat

/-- ASCII bytes of a literal string (all source literals are ASCII). -/
def ascii (s : String) : List Byte := s.data.map Char.toNat

/-- `binary.LittleEndian.Uint16`: Go panics when fewer than 2 bytes remain,
modelled by `none`. Extra trailing bytes are ignored, as in Go. -/
def leUint16? : List Byte → Option Nat
  | b0 :: b1 :: _ => some (b0 + 2 ^ 8 * b1)
  | _ => none

/-- `binary.LittleEndian.Uint32` (`endian.Uint32`; the file byte order is
little-endian, `endian.go`). Go panics when fewer than 4 bytes remain. -/
def leUint32? : List Byte → Option Nat
  | b0 :: b1 :: b2 :: b3 :: _ => some (b0 + 2 ^ 8 * b1 + 2 ^ 16 * b2 + 2 ^ 24 * b3)
  | _ => none

/-- `binary.LittleEndian.Uint64`. -/
def leUint64? : List Byte → Option Nat
  | b0 :: b1 :: b2 :: b3 :: b4 :: b5 :: b6 :: b7 :: _ =>
      some (b0 + 2 ^ 8 * b1 + 2 ^ 16 * b2 + 2 ^ 24 * b3 +
            2 ^ 32 * b4 + 2 ^ 40 * b5 + 2 ^ 48 * b6 + 2 ^ 56 * b7)
  | _ => none

/-- `endian.Uint32` in a context where at least 4 bytes are guaranteed. -/
def leUint32 (l : List Byte) : Nat := (leUint32? l).getD 0

def leUint64 (l : List Byte) : Nat := (leUint64? l).getD 0

/-- Little-endian 4-byte encoding, used to build concrete streams in
specifications (the inverse of `leUint32` for values < 2^32). -/
def le32 (n : Nat) : List Byte :=
  [n % 2 ^ 8, n / 2 ^ 8 % 2 ^ 8, n / 2 ^ 16 % 2 ^ 8, n / 2 ^ 24 % 2 ^ 8]

/-- Two's-complement reading of an unsigned `w`-bit value, for the Go
conversions `int8(..)`, `int16(..)`, `int32(..)`, `int64(..)`. -/
def toSigned (w : Nat) (n : Nat) : Int :=
  if n < 2 ^ (w - 1) then (n : Int) else (n : Int) - 2 ^ w

/-- Go slice expression `l[lo:hi]` (slices produced by the decoder have
`len == cap`): panics — `none` — unless `lo ≤ hi ≤ len(l)`. -/
def goSlice (l : List Byte) (lo hi : Nat) : Option (List Byte) :=
  if lo ≤ hi ∧ hi ≤ l.length then some ((l.drop lo).take (hi - lo)) else none

/-- Overwrite `raw[off : off+len(bs)]` with `bs` (callers guarantee the
range is in bounds via `grow`). -/
def writeAt (raw : List Byte) (off : Nat) (bs : List Byte) : List Byte :=
  raw.take off ++ bs ++ raw.drop (off + bs.length)

/-- The `error` values produced by the embedded code. -/
inductive GoErr
  /-- `io.EOF` -/
  | eof
  /-- `io.ErrUnexpectedEOF` (from `io.ReadFull`) -/
  | unexpectedEOF
  /-- version-line scan failure from `fmt.Fscanf` -/
  | versionScan
  /-- "%s is not supported. %s is the current supported version" -/
  | unsupportedVersion
  /-- `errInvalidOp` -/
  | invalidOp
  /-- `errNotFoundConnectionHeader` -/
  | notFoundConnectionHeader
  /-- `errUnsupportedCompression` -/
  | unsupportedCompression
  /-- "missing header field length" -/
  | missingFieldLen
  /-- "expected header field len to be %d, but got %d" -/
  | badFieldLen
  /-- "invalid header field format, expected the key and value is separated by a '='" -/
  | missingDelim
  /-- "invalid header field len, expected to be at least %d" -/
  | shortFieldLen
  /-- "%s field doesn't exist in the header fields" -/
  | fieldNotFound (key : List Byte)
  /-- `errInvalidFormat` -/
  | invalidFormat
  /-- `errUnresolvedMsgType` -/
  | unresolvedMsgType
  /-- `errInvalidConstType` -/
  | invalidConstType
  /-- a `strconv` parse error -/
  | strconvErr
  deriving DecidableEq, Repr

/-- Outcome of running a piece of embedded Go code: a value, a returned
`error`, or a runtime panic. -/
inductive Res (α : Type)
  | ok (a : α)
  | err (e : GoErr)
  | panics
  deriving DecidableEq, Repr

/-- `io.ReadFull(r, buf)` with `n = len(buf)`: returns the bytes read and
the rest of the stream. `io.EOF` when no byte is available (stream
position unchanged), `io.ErrUnexpectedEOF` after a partial read (the
partial bytes are consumed from the stream). -/
def readFull (stream : List Byte) (n : Nat) : Res (List Byte) × List Byte :=
  if n ≤ stream.length then (.ok (stream.take n), stream.drop n)
  else if stream.length = 0 then (.err .eof, stream)
  else (.err .unexpectedEOF, [])

/-! ## Record layer (`rosbag.go`) -/

/-- `lenInBytes` -/
def lenInBytes : Nat := 4

/-- `headerFieldDelimiter = '='` -/
def headerFieldDelimiter : Byte := 61

/-- `initialRecordSize` (size of a fresh pooled record buffer) -/
def initialRecordSize : Nat := 4096

def OpInvalid : Nat := 0x00
def OpBagHeader : Nat := 0x03
def OpChunk : Nat := 0x05
def OpConnection : Nat := 0x07
def OpMessageData : Nat := 0x02
def OpIndexData : Nat := 0x04
def OpChunkInfo : Nat := 0x06

/-- `RecordBase`: `Raw` contains `<header_len><header><data_len><data>`
(the `closeFn` pooling hook carries no observable data and is omitted). -/
structure RecordBase where
  Raw : List Byte
  HeaderLen : Nat
  DataLen : Nat
  deriving DecidableEq, Repr

/-- `record.grow(requiredSize)`: `make([]byte, 2*requiredSize)` zero-fills,
then the old contents are copied to the front. -/
def RecordBase.grow (record : RecordBase) (requiredSize : Nat) : RecordBase :=
  if record.Raw.length < requiredSize then
    { record with Raw := record.Raw ++ List.replicate (2 * requiredSize - record.Raw.length) 0 }
  else record

/-- `record.Header()` — `record.Raw[lenInBytes : lenInBytes+record.HeaderLen]`. -/
def RecordBase.header? (record : RecordBase) : Option (List Byte) :=
  goSlice record.Raw lenInBytes (lenInBytes + record.HeaderLen)

/-- `record.Data()` — `record.Raw[off : off+record.DataLen]` with
`off = 2*lenInBytes + record.HeaderLen`. -/
def RecordBase.data? (record : RecordBase) : Option (List Byte) :=
  goSlice record.Raw (2 * lenInBytes + record.HeaderLen)
    (2 * lenInBytes + record.HeaderLen + record.DataLen)

/-- `iterateHeaderFields(header, cb)`. The Go callback mutates captured
state and reports whether to continue; here it maps a state `σ` to the
new state and the continue flag. Returns the final state and the error
(`none` on success; Go `nil`).

Note `bytes.IndexByte(header, '=')` searches the whole remaining header,
not just the current field's `fieldLen` bytes, exactly as the source. -/
def iterateHeaderFields {σ : Type} (cb : σ → List Byte → List Byte → σ × Bool) :
    List Byte → σ → σ × Option GoErr
  | header, s =>
    if header.length = 0 then (s, none)
    else if header.length < lenInBytes then (s, some .missingFieldLen)
    else
      let fieldLen := leUint32 header
      let rest := header.drop lenInBytes
      if rest.length < fieldLen then (s, some .badFieldLen)
      else
        match rest.findIdx? (· = headerFieldDelimiter) with
        | none => (s, some .missingDelim)
        | some i =>
          if fieldLen < i + 1 then (s, some .shortFieldLen)
          else
            let step := cb s (rest.take i) ((rest.drop (i + 1)).take (fieldLen - (i + 1)))
            if step.2 then iterateHeaderFields cb (rest.drop fieldLen) step.1
            else (step.1, none)
  termination_by header => header.length
  decreasing_by
    simp only [List.length_drop]
    omega

/-- The scan at the heart of `findField`: remember the value of the first
field whose key equals `key` and stop there. -/
def findFieldCore (header : List Byte) (key : List Byte) : Res (List Byte) :=
  let r := iterateHeaderFields (σ := Option (List Byte))
    (fun acc currentKey currentValue =>
      if currentKey = key then (some currentValue, false) else (acc, true))
    header none
  match r.2 with
  | some e => .err e
  | none =>
    match r.1 with
    | none => .err (.fieldNotFound key)
    | some v => .ok v

/-- `record.findField(key)`. The empty value slice `header[i+1:fieldLen]`
with `i+1 = fieldLen` is non-nil in Go, so it does *not* trigger the
`value == nil` not-found branch; the model keeps that distinction via
`Option`. -/
def RecordBase.findField (record : RecordBase) (key : List Byte) : Res (List Byte) :=
  match record.header? with
  | none => .panics
  | some header => findFieldCore header key

/-- The value conversion of `findFieldUint32` — `endian.Uint32(value)`
panics when the value holds fewer than 4 bytes. -/
def findFieldUint32Core (header : List Byte) (key : List Byte) : Res Nat :=
  match findFieldCore header key with
  | .err e => .err e
  | .panics => .panics
  | .ok value =>
    match leUint32? value with
    | none => .panics
    | some n => .ok n

/-- `record.findFieldUint32(key)`. -/
def RecordBase.findFieldUint32 (record : RecordBase) (key : List Byte) : Res Nat :=
  match record.header? with
  | none => .panics
  | some header => findFieldUint32Core header key

/-- `record.findFieldUint64(key)`. -/
def RecordBase.findFieldUint64 (record : RecordBase) (key : List Byte) : Res Nat :=
  match record.findField key with
  | .err e => .err e
  | .panics => .panics
  | .ok value =>
    match leUint64? value with
    | none => .panics
    | some n => .ok n

/-- `extractTime` (`time.go`): `(sec, nsec)` as read by two `endian.Uint32`;
fewer than 8 bytes panics. The `time.Time` value is modelled by the pair. -/
def extractTime? (raw : List Byte) : Option (Nat × Nat) :=
  match leUint32? raw with
  | none => none
  | some sec =>
    match leUint32? (raw.drop 4) with
    | none => none
    | some nsec => some (sec, nsec)

/-- `record.findFieldTime(key)`. -/
def RecordBase.findFieldTime (record : RecordBase) (key : List Byte) : Res (Nat × Nat) :=
  match record.findField key with
  | .err e => .err e
  | .panics => .panics
  | .ok value =>
    match extractTime? value with
    | none => .panics
    | some t => .ok t

/-- The header-level part of `Op()`: look up the `op` field and return
`Op(value[0])`; `value[0]` on an empty (but non-nil) value slice panics. -/
def opOfHeader (header : List Byte) : Res Nat :=
  match findFieldCore header (ascii "op") with
  | .err e => .err e
  | .panics => .panics
  | .ok value =>
    match value with
    | [] => .panics
    | b :: _ => .ok b

/-- `record.Op()`. -/
def RecordBase.op (record : RecordBase) : Res Nat :=
  match record.header? with
  | none => .panics
  | some header => opOfHeader header

/-- The header-level part of `RecordChunk.Compression()`. -/
def compressionOfHeader (header : List Byte) : Res (List Byte) :=
  match findFieldCore header (ascii "compression") with
  | .err e => .err e
  | .panics => .panics
  | .ok value => .ok value

/-- `RecordChunk.Compression()`: the raw value of the `compression` header
field (a Go string; byte list here). -/
def RecordBase.compression (record : RecordBase) : Res (List Byte) :=
  match record.header? with
  | none => .panics
  | some header => compressionOfHeader header

/-- The header-level part of `Conn()`. -/
def connOfHeader (header : List Byte) : Res Nat :=
  findFieldUint32Core header (ascii "conn")

/-- `RecordConnection.Conn()` / `RecordMessageData.Conn()`. -/
def RecordBase.conn (record : RecordBase) : Res Nat :=
  match record.header? with
  | none => .panics
  | some header => connOfHeader header

/-! ## Specification-side encodings of headers and frames -/

/-- One well-formed header field: `<u32LE fieldlen><key>'='<value>` with
`fieldlen = len(key)+1+len(value)`. -/
def encodeField (key value : List Byte) : List Byte :=
  le32 (key.length + 1 + value.length) ++ key ++ [headerFieldDelimiter] ++ value

/-- A header made of well-formed fields. -/
def encodeHeader (fields : List (List Byte × List Byte)) : List Byte :=
  (fields.map fun kv => encodeField kv.1 kv.2).flatten

/-- A record frame: `<u32LE hdrlen><hdr><u32LE datalen><data>`. -/
def encodeFrame (hdr data : List Byte) : List Byte :=
  le32 hdr.length ++ hdr ++ le32 data.length ++ data

/-- A chunk record's wire form: frame whose `datalen` announces `body` but
whose body bytes follow the frame header on the primary stream. -/
def encodeChunkFrame (hdr body : List Byte) : List Byte :=
  le32 hdr.length ++ hdr ++ le32 body.length ++ body

/-! ## Message definitions (`message.go`): data model -/

/-- `MessageFieldType` (iota+1 enumeration). -/
inductive MessageFieldType
  | bool | int8 | uint8 | int16 | uint16 | int32 | uint32 | int64 | uint64
  | float32 | float64 | string | time | duration | complex
  deriving DecidableEq, Repr

/-- `messageFieldTypeMap` (`byte` aliases `int8`, `char` aliases `uint8`). -/
def messageFieldTypeMap (s : List Byte) : Option MessageFieldType :=
  if s = ascii "bool" then some .bool
  else if s = ascii "int8" then some .int8
  else if s = ascii "byte" then some .int8
  else if s = ascii "uint8" then some .uint8
  else if s = ascii "char" then some .uint8
  else if s = ascii "int16" then some .int16
  else if s = ascii "uint16" then some .uint16
  else if s = ascii "int32" then some .int32
  else if s = ascii "uint32" then some .uint32
  else if s = ascii "int64" then some .int64
  else if s = ascii "uint64" then some .uint64
  else if s = ascii "float32" then some .float32
  else if s = ascii "float64" then some .float64
  else if s = ascii "string" then some .string
  else if s = ascii "time" then some .time
  else if s = ascii "duration" then some .duration
  else none

/-- A decoded Go `interface{}` value as produced by the decoders. Floating
point values are carried as their raw IEEE-754 bit patterns (scalars from
the wire) or as the unconverted literal (constants); the numeric
interpretation of those bits is outside the embedding. Slices are `vArr`;
dynamic-map results are `vMap` (later entries shadowed by earlier ones,
matching Go map overwrite followed by first-hit lookup). -/
inductive Value
  | vBool (b : Bool)
  | vInt8 (n : Int)
  | vUint8 (n : Nat)
  | vInt16 (n : Int)
  | vUint16 (n : Nat)
  | vInt32 (n : Int)
  | vUint32 (n : Nat)
  | vInt64 (n : Int)
  | vUint64 (n : Nat)
  | vFloat32bits (bits : Nat)
  | vFloat64bits (bits : Nat)
  | vFloatLit (lit : List Byte) (wide : Bool)
  | vString (s : List Byte)
  | vTime (sec nsec : Nat)
  | vDuration (nanos : Int)
  | vArr (vs : List Value)
  | vMap (m : List (List Byte × Value))

/-- `MessageFieldDefinition`. The Go `MsgType *MessageDefinition` pointer
into the definition set is modelled as an index into the flat list of
definitions produced by `unmarshall` (the pointer graph, by position). -/
structure MessageFieldDefinition where
  «Type» : MessageFieldType
  Name : List Byte
  IsArray : Bool
  ArraySize : Int
  Value : Option Rosbag.Value
  MsgType : Option Nat

/-- `MessageDefinition`. -/
structure MessageDefinition where
  «Type» : List Byte
  Fields : List MessageFieldDefinition

/-! ## strconv models (Go standard library collaborators) -/

def isDigitB (b : Byte) : Bool := 48 ≤ b ∧ b ≤ 57

/-- Value of a non-empty all-digit byte string. -/
def digitsVal? (l : List Byte) : Option Nat :=
  if l ≠ [] ∧ l.all isDigitB then
    some (l.foldl (fun acc b => 10 * acc + (b - 48)) 0)
  else none

/-- `strconv.ParseUint(s, 10, bitSize)`: `(value, hasError)`. A syntax
error yields 0; a range error yields the clamped maximum. -/
def goParseUint (s : List Byte) (bitSize : Nat) : Nat × Bool :=
  match digitsVal? s with
  | none => (0, true)
  | some n => if n > 2 ^ bitSize - 1 then (2 ^ bitSize - 1, true) else (n, false)

/-- `strconv.ParseInt(s, 10, bitSize)`: one optional leading sign, then
digits; range errors clamp to the extremes, as in Go. -/
def goParseInt (s : List Byte) (bitSize : Nat) : Int × Bool :=
  match s with
  | [] => (0, true)
  | c :: rest0 =>
    let neg : Bool := c = 45
    let digits := if c = 43 ∨ c = 45 then rest0 else s
    match digitsVal? digits with
    | none => (0, true)
    | some un0 =>
      let un := min un0 (2 ^ bitSize - 1)
      let cutoff : Nat := 2 ^ (bitSize - 1)
      if !neg ∧ un ≥ cutoff then ((cutoff : Int) - 1, true)
      else if neg ∧ un > cutoff then (-(cutoff : Int), true)
      else (if neg then -(un : Int) else (un : Int), false)

/-- `strconv.Atoi` (64-bit `int`). -/
def goAtoi (s : List Byte) : Int × Bool := goParseInt s 64

/-- `strconv.ParseBool`: the twelve accepted literals. -/
def goParseBool (s : List Byte) : Bool × Bool :=
  if s = ascii "1" ∨ s = ascii "t" ∨ s = ascii "T" ∨ s = ascii "true" ∨
     s = ascii "TRUE" ∨ s = ascii "True" then (true, false)
  else if s = ascii "0" ∨ s = ascii "f" ∨ s = ascii "F" ∨ s = ascii "false" ∨
     s = ascii "FALSE" ∨ s = ascii "False" then (false, false)
  else (false, true)

/-- Syntactic validity of a `strconv.ParseFloat` decimal literal (the
numeric conversion to IEEE-754 is outside the embedding; only the error
flag is modelled, and no claim depends on it). -/
def floatSyntaxOk (s : List Byte) : Bool :=
  let body := match s with
    | c :: rest => if c = 43 ∨ c = 45 then rest else s
    | [] => []
  let mantissa := body.takeWhile (fun b => isDigitB b ∨ b = 46)
  let expPart := body.drop mantissa.length
  decide (mantissa ≠ []) && decide (mantissa.count 46 ≤ 1) &&
    decide (mantissa ≠ [(46 : Nat)]) &&
    (match expPart with
     | [] => true
     | e :: rest =>
       (decide (e = 101) || decide (e = 69)) &&
       (match rest with
        | c :: ds => decide ((c = 43 ∨ c = 45) → ds ≠ []) &&
                     (if c = 43 ∨ c = 45 then ds.all isDigitB && decide (ds ≠ []) else rest.all isDigitB && decide (rest ≠ []))
        | [] => false))

/-- `decodeConstValue(fieldType, raw)`: `(value, hasError)` as the pair Go
returns — note a parse failure still returns a typed zero/clamped value
(non-nil `interface{}`), and only the `default` branch returns nil. -/
def decodeConstValue (fieldType : MessageFieldType) (raw : List Byte) :
    Option Rosbag.Value × Bool :=
  match fieldType with
  | .bool => let r := goParseBool raw; (some (.vBool r.1), r.2)
  | .int8 => let r := goParseInt raw 8; (some (.vInt8 r.1), r.2)
  | .uint8 => let r := goParseUint raw 8; (some (.vUint8 r.1), r.2)
  | .int16 => let r := goParseInt raw 16; (some (.vInt16 r.1), r.2)
  | .uint16 => let r := goParseUint raw 16; (some (.vUint16 r.1), r.2)
  | .int32 => let r := goParseInt raw 32; (some (.vInt32 r.1), r.2)
  | .uint32 => let r := goParseUint raw 32; (some (.vUint32 r.1), r.2)
  | .int64 => let r := goParseInt raw 64; (some (.vInt64 r.1), r.2)
  | .uint64 => let r := goParseUint raw 64; (some (.vUint64 r.1), r.2)
  | .float32 => (some (.vFloatLit raw false), !floatSyntaxOk raw)
  | .float64 => (some (.vFloatLit raw true), !floatSyntaxOk raw)
  | .string => (some (.vString raw), false)
  | _ => (none, true)

/-! ## The `.msg` grammar parser (`MessageDefinition.unmarshall`) -/

/-- `bytes.TrimSpace` restricted to the ASCII whitespace bytes (the
`.msg` sources are ASCII). -/
def trimSpace (l : List Byte) : List Byte :=
  ((l.dropWhile fun b => b = 32 ∨ b = 9 ∨ b = 10 ∨ b = 11 ∨ b = 12 ∨ b = 13).reverse.dropWhile
    fun b => b = 32 ∨ b = 9 ∨ b = 10 ∨ b = 11 ∨ b = 12 ∨ b = 13).reverse

/-- `bytes.Split(b, []byte("\n"))`. -/
def splitLines (b : List Byte) : List (List Byte) :=
  List.splitOn 10 b

/-- `bytes.LastIndexByte` (−1 when absent). -/
def lastIdxOf (l : List Byte) (b : Byte) : Int :=
  match l.reverse.findIdx? (· = b) with
  | none => -1
  | some j => (l.length : Int) - 1 - (j : Int)

/-- Parser state of `unmarshall`: `complexMsgs` (the receiver definition
first) and the not-yet-resolved complex fields, as
`(definition index, field index, referenced type text)` in source order
(Go iterates the pointer-keyed map in unspecified order; resolution of
distinct fields is independent, so source order fixes one behaviour). -/
structure UState where
  defs : List MessageDefinition
  unresolved : List (Nat × Nat × List Byte)

/-- Outcome of the line loop: the Go `return err` paths leave the
partially built definitions visible to the caller (the receiver was
mutated in place), so errors carry the state. -/
inductive URes
  | ok (st : UState)
  | errSt (st : UState) (e : GoErr)
  | panics

/-- One iteration of `unmarshall`'s line loop. -/
def processLine (st : UState) (line0 : List Byte) : URes :=
  let line1 := match line0.findIdx? (· = 35) with
    | some idx => line0.take idx
    | none => line0
  let line := trimSpace line1
  if line.length = 0 then .ok st
  else if line.headD 0 = 61 then .ok st
  else if (line.findIdx? (· = 58)).isSome then
    let idx := lastIdxOf line 32
    let msgType := line.drop (idx + 1).toNat
    .ok { st with defs := st.defs ++ [{ «Type» := msgType, Fields := [] }] }
  else
    match line.findIdx? (· = 32) with
    | none => .panics
    | some idx =>
      let fieldType0 := line.take idx
      let fieldName0 := trimSpace (line.drop (idx + 1))
      let bracket := fieldType0.findIdx? (· = 91)
      let arrParse : Option (Bool × Int × List Byte) :=
        match bracket with
        | none => some (false, -1, fieldType0)
        | some bidx =>
          -- `off := bytes.IndexByte(fieldType[idx:], ']')`; `off > 1`
          -- only when the byte exists at an index above 1.
          match (fieldType0.drop bidx).findIdx? (· = 93) with
          | some o =>
            if 1 < o then
              let arraySizeRaw := ((fieldType0.drop (bidx + 1)).take (o - 1))
              let r := goAtoi arraySizeRaw
              if r.2 then none
              else some (true, r.1, fieldType0.take bidx)
            else some (true, -1, fieldType0.take bidx)
          | none => some (true, -1, fieldType0.take bidx)
      match arrParse with
      | none => .errSt st .strconvErr
      | some arr =>
        let isArray := arr.1
        let arraySize := arr.2.1
        let fieldType := arr.2.2
        let eqIdx := fieldName0.findIdx? (· = 61)
        let msgFieldType := (messageFieldTypeMap fieldType).getD .complex
        let cname : Option Rosbag.Value × List Byte :=
          match eqIdx with
          | none => (none, fieldName0)
          | some i =>
            ((decodeConstValue msgFieldType (trimSpace (fieldName0.drop (i + 1)))).1,
              trimSpace (fieldName0.take i))
        let fieldDef : MessageFieldDefinition :=
          { «Type» := msgFieldType, Name := cname.2, IsArray := isArray,
            ArraySize := arraySize, Value := cname.1, MsgType := none }
        let di := st.defs.length - 1
        let d := st.defs.getLastD { «Type» := [], Fields := [] }
        let fi := d.Fields.length
        let defs' := st.defs.set di { d with Fields := d.Fields ++ [fieldDef] }
        let unresolved' :=
          if msgFieldType = .complex then st.unresolved ++ [(di, fi, fieldType)]
          else st.unresolved
        .ok { defs := defs', unresolved := unresolved' }

/-- The line loop of `unmarshall`. -/
def runLines (st : UState) : List (List Byte) → URes
  | [] => .ok st
  | line :: rest =>
    match processLine st line with
    | .ok st' => runLines st' rest
    | .errSt st' e => .errSt st' e
    | .panics => .panics

/-- `findComplexMsg(complexMsgs, msgType)` as an index: the first
definition whose `Type` has `msgType` as a suffix. -/
def findComplexMsgIdx (defs : List MessageDefinition) (msgType : List Byte) : Option Nat :=
  defs.findIdx? fun cur => msgType.isSuffixOf cur.«Type»

/-- Set `MsgType` of field `fi` of definition `di`. -/
def setMsgType (defs : List MessageDefinition) (di fi : Nat) (j : Nat) :
    List MessageDefinition :=
  match defs.get? di with
  | none => defs
  | some d =>
    match d.Fields.get? fi with
    | none => defs
    | some f => defs.set di { d with Fields := d.Fields.set fi { f with MsgType := some j } }

/-- The resolution loop of `unmarshall`. -/
def resolveFields (defs : List MessageDefinition) :
    List (Nat × Nat × List Byte) → List MessageDefinition × Option GoErr
  | [] => (defs, none)
  | (di, fi, tname) :: rest =>
    match findComplexMsgIdx defs tname with
    | none => (defs, some .unresolvedMsgType)
    | some j => resolveFields (setMsgType defs di fi j) rest

/-- `def.unmarshall(b)`: the receiver is the head of the returned list;
the other entries are the nested definitions; `MsgType` indices point
into the list. Errors carry the partially built state, mirroring the
in-place mutation of the receiver; a line with neither `':'` nor `' '`
panics (`line[:-1]`). -/
def unmarshall (b : List Byte) : Res (List MessageDefinition × Option GoErr) :=
  match runLines { defs := [{ «Type» := [], Fields := [] }], unresolved := [] } (splitLines b) with
  | .panics => .panics
  | .errSt st e => .ok (st.defs, some e)
  | .ok st =>
    let r := resolveFields st.defs st.unresolved
    .ok r

/-! ## Connection headers -/

/-- `ConnectionHeader`; `MessageDefinition` is the definition list
produced by `unmarshall` (head = primary). -/
structure ConnectionHeader where
  Topic : List Byte
  «Type» : List Byte
  MD5Sum : List Byte
  MessageDefinition : List Rosbag.MessageDefinition

/-- `RecordConnection.ConnectionHeader()`. The callback's `err`
assignment from `unmarshall` is overwritten by the value
`iterateHeaderFields` returns (the Go code reassigns `err` with the
iteration's result after the loop), so `unmarshall` errors are dropped;
only a panic inside the callback escapes. -/
def connHdrOfData (data : List Byte) : Res ConnectionHeader :=
    let r := iterateHeaderFields (σ := ConnectionHeader × Bool)
      (fun st key value =>
        if st.2 then (st, false)
        else if key = ascii "topic" then (({ st.1 with Topic := value }, false), true)
        else if key = ascii "type" then (({ st.1 with «Type» := value }, false), true)
        else if key = ascii "md5sum" then (({ st.1 with MD5Sum := value }, false), true)
        else if key = ascii "message_definition" then
          match unmarshall value with
          | .panics => ((st.1, true), false)
          | .ok du => (({ st.1 with MessageDefinition := du.1 }, false), true)
          | .err _ => ((st.1, true), false)
        else (st, true))
      data (({ Topic := [], «Type» := [], MD5Sum := [], MessageDefinition := [] } : ConnectionHeader), false)
    if r.1.2 then .panics
    else
      match r.2 with
      | some e => .err e
      | none => .ok r.1.1

/-- `RecordConnection.ConnectionHeader()`. -/
def RecordBase.connectionHeader? (record : RecordBase) : Res ConnectionHeader :=
  match record.data? with
  | none => .panics
  | some data => connHdrOfData data

/-! ## Primitive field codecs (`field_decoder.go`)

The result of a `fieldDecodeFunc` — Go's `(v interface{}, off int, ok
bool)` — plus the distinguished panic outcome for the unchecked reads of
the slow (byte-swapping) slice family. -/

inductive FDec
  | ok (v : Rosbag.Value) (off : Nat)
  | notOk
  | panics

/-- `fieldDecodeLength(raw, fixedLength)`: `(length, off)`; `none` is
`ok = false`. For a dynamic array the u32LE prefix is read and the
*element count* is checked against the remaining bytes. -/
def fieldDecodeLength (raw : List Byte) (fixedLength : Int) : Option (Nat × Nat) :=
  if 0 ≤ fixedLength then some (fixedLength.toNat, 0)
  else if raw.length < lenInBytes then none
  else
    let length := leUint32 raw
    if raw.length < lenInBytes + length then none
    else some (length, lenInBytes)

def fieldDecodeBool (raw : List Byte) (_length : Int) : FDec :=
  if raw.length < 1 then .notOk else .ok (.vBool (raw.headD 0 ≠ 0)) 1

def fieldDecodeInt8 (raw : List Byte) (_length : Int) : FDec :=
  if raw.length < 1 then .notOk else .ok (.vInt8 (toSigned 8 (raw.headD 0))) 1

def fieldDecodeUint8 (raw : List Byte) (_length : Int) : FDec :=
  if raw.length < 1 then .notOk else .ok (.vUint8 (raw.headD 0)) 1

def fieldDecodeInt16 (raw : List Byte) (_length : Int) : FDec :=
  match leUint16? raw with
  | none => .notOk
  | some u => .ok (.vInt16 (toSigned 16 u)) 2

def fieldDecodeUint16 (raw : List Byte) (_length : Int) : FDec :=
  match leUint16? raw with
  | none => .notOk
  | some u => .ok (.vUint16 u) 2

def fieldDecodeInt32 (raw : List Byte) (_length : Int) : FDec :=
  match leUint32? raw with
  | none => .notOk
  | some u => .ok (.vInt32 (toSigned 32 u)) 4

def fieldDecodeUint32 (raw : List Byte) (_length : Int) : FDec :=
  match leUint32? raw with
  | none => .notOk
  | some u => .ok (.vUint32 u) 4

def fieldDecodeInt64 (raw : List Byte) (_length : Int) : FDec :=
  match leUint64? raw with
  | none => .notOk
  | some u => .ok (.vInt64 (toSigned 64 u)) 8

def fieldDecodeUint64 (raw : List Byte) (_length : Int) : FDec :=
  match leUint64? raw with
  | none => .notOk
  | some u => .ok (.vUint64 u) 8

/-- `fieldDecodeFloat32`: `math.Float32frombits(endian.Uint32(raw))`,
kept as the bit pattern. -/
def fieldDecodeFloat32 (raw : List Byte) (_length : Int) : FDec :=
  match leUint32? raw with
  | none => .notOk
  | some u => .ok (.vFloat32bits u) 4

def fieldDecodeFloat64 (raw : List Byte) (_length : Int) : FDec :=
  match leUint64? raw with
  | none => .notOk
  | some u => .ok (.vFloat64bits u) 8

def fieldDecodeString (raw : List Byte) (length : Int) : FDec :=
  match fieldDecodeLength raw length with
  | none => .notOk
  | some lo =>
    if lo.1 = 0 then .ok (.vString []) lo.2
    else
      let rest := raw.drop lo.2
      if rest.length < lo.1 then .notOk
      else .ok (.vString (rest.take lo.1)) (lo.2 + lo.1)

def fieldDecodeTime (raw : List Byte) (_length : Int) : FDec :=
  match extractTime? raw with
  | none => .notOk
  | some t => .ok (.vTime t.1 t.2) 8

/-- `extractDuration` (`time.go`): `Duration(sec)*Second + Duration(nsec)`. -/
def fieldDecodeDuration (raw : List Byte) (_length : Int) : FDec :=
  match extractTime? raw with
  | none => .notOk
  | some t => .ok (.vDuration ((t.1 : Int) * 1000000000 + (t.2 : Int))) 8

/-- `fieldDecodeBasicSlice(raw, ptr, length, size)`: the zero-copy core.
On success the returned slice header aliases `length` elements spanning
`length*size` bytes of `raw`; the model returns those aliased bytes. -/
inductive SDec
  | ok (bytes : List Byte) (off : Nat)
  | notOk

def fieldDecodeBasicSlice (raw : List Byte) (length : Int) (size : Nat) : SDec :=
  match fieldDecodeLength raw length with
  | none => .notOk
  | some lo =>
    if lo.1 = 0 then .ok [] lo.2
    else
      let rest := raw.drop lo.2
      if rest.length < lo.1 * size then .notOk
      else .ok (rest.take (lo.1 * size)) (lo.2 + lo.1 * size)

/-- Split into consecutive groups of `w` bytes (the element layout of an
aliased primitive slice). -/
def chunksOf (w : Nat) : List Byte → List (List Byte)
  | [] => []
  | b :: rest => (b :: rest).take w :: chunksOf w (rest.drop (w - 1))
  termination_by l => l.length
  decreasing_by
    simp only [List.length_drop, List.length_cons]
    omega

/-- `endian.Uint16/32/64` selected by width (the widths the slow family
swaps element-by-element). -/
def leUintW? : Nat → List Byte → Option Nat
  | 2, l => leUint16? l
  | 4, l => leUint32? l
  | 8, l => leUint64? l
  | _, _ => none

/-- The element loop of the `*SliceSlow` functions:
`arr[i] = endian.UintW(raw[off:]); off += w` — with **no** bounds check,
so a short tail is a runtime panic (`none`). Returns the elements and
the final `off`. -/
def readElems (w : Nat) (raw : List Byte) : Nat → Nat → Option (List Nat × Nat)
  | off, 0 => some ([], off)
  | off, n + 1 =>
    match leUintW? w (raw.drop off) with
    | none => none
    | some u =>
      match readElems w raw (off + w) n with
      | none => none
      | some r => some (u :: r.1, r.2)

/-! ### The fast (aliasing) slice family

These expose the aliased bytes reinterpreted at the *host* byte order;
the driver installs this family exactly when the host order equals the
little-endian file order (`endian.go`), so the reinterpretation below
reads little-endian. -/

def fieldDecodeBoolSlice (raw : List Byte) (length : Int) : FDec :=
  match fieldDecodeBasicSlice raw length 1 with
  | .notOk => .notOk
  | .ok bytes off => .ok (.vArr (bytes.map fun b => .vBool (b ≠ 0))) off

def fieldDecodeInt8Slice (raw : List Byte) (length : Int) : FDec :=
  match fieldDecodeBasicSlice raw length 1 with
  | .notOk => .notOk
  | .ok bytes off => .ok (.vArr (bytes.map fun b => .vInt8 (toSigned 8 b))) off

def fieldDecodeUint8Slice (raw : List Byte) (length : Int) : FDec :=
  match fieldDecodeBasicSlice raw length 1 with
  | .notOk => .notOk
  | .ok bytes off => .ok (.vArr (bytes.map fun b => .vUint8 b)) off

def fieldDecodeInt16Slice (raw : List Byte) (length : Int) : FDec :=
  match fieldDecodeBasicSlice raw length 2 with
  | .notOk => .notOk
  | .ok bytes off =>
    .ok (.vArr ((chunksOf 2 bytes).map fun c => .vInt16 (toSigned 16 ((leUint16? c).getD 0)))) off

def fieldDecodeUint16Slice (raw : List Byte) (length : Int) : FDec :=
  match fieldDecodeBasicSlice raw length 2 with
  | .notOk => .notOk
  | .ok bytes off =>
    .ok (.vArr ((chunksOf 2 bytes).map fun c => .vUint16 ((leUint16? c).getD 0))) off

def fieldDecodeInt32Slice (raw : List Byte) (length : Int) : FDec :=
  match fieldDecodeBasicSlice raw length 4 with
  | .notOk => .notOk
  | .ok bytes off =>
    .ok (.vArr ((chunksOf 4 bytes).map fun c => .vInt32 (toSigned 32 (leUint32 c)))) off

def fieldDecodeUint32Slice (raw : List Byte) (length : Int) : FDec :=
  match fieldDecodeBasicSlice raw length 4 with
  | .notOk => .notOk
  | .ok bytes off =>
    .ok (.vArr ((chunksOf 4 bytes).map fun c => .vUint32 (leUint32 c))) off

def fieldDecodeInt64Slice (raw : List Byte) (length : Int) : FDec :=
  match fieldDecodeBasicSlice raw length 8 with
  | .notOk => .notOk
  | .ok bytes off =>
    .ok (.vArr ((chunksOf 8 bytes).map fun c => .vInt64 (toSigned 64 (leUint64 c)))) off

def fieldDecodeUint64Slice (raw : List Byte) (length : Int) : FDec :=
  match fieldDecodeBasicSlice raw length 8 with
  | .notOk => .notOk
  | .ok bytes off =>
    .ok (.vArr ((chunksOf 8 bytes).map fun c => .vUint64 (leUint64 c))) off

def fieldDecodeFloat32Slice (raw : List Byte) (length : Int) : FDec :=
  match fieldDecodeBasicSlice raw length 4 with
  | .notOk => .notOk
  | .ok bytes off =>
    .ok (.vArr ((chunksOf 4 bytes).map fun c => .vFloat32bits (leUint32 c))) off

def fieldDecodeFloat64Slice (raw : List Byte) (length : Int) : FDec :=
  match fieldDecodeBasicSlice raw length 8 with
  | .notOk => .notOk
  | .ok bytes off =>
    .ok (.vArr ((chunksOf 8 bytes).map fun c => .vFloat64bits (leUint64 c))) off

/-! ### The slow (copying / byte-swapping) slice family -/

def fieldDecodeInt16SliceSlow (raw : List Byte) (length : Int) : FDec :=
  match fieldDecodeLength raw length with
  | none => .notOk
  | some lo =>
    match readElems 2 raw lo.2 lo.1 with
    | none => .panics
    | some r => .ok (.vArr (r.1.map fun u => .vInt16 (toSigned 16 u))) r.2

def fieldDecodeUint16SliceSlow (raw : List Byte) (length : Int) : FDec :=
  match fieldDecodeLength raw length with
  | none => .notOk
  | some lo =>
    match readElems 2 raw lo.2 lo.1 with
    | none => .panics
    | some r => .ok (.vArr (r.1.map fun u => .vUint16 u)) r.2

def fieldDecodeInt32SliceSlow (raw : List Byte) (length : Int) : FDec :=
  match fieldDecodeLength raw length with
  | none => .notOk
  | some lo =>
    match readElems 4 raw lo.2 lo.1 with
    | none => .panics
    | some r => .ok (.vArr (r.1.map fun u => .vInt32 (toSigned 32 u))) r.2

def fieldDecodeUint32SliceSlow (raw : List Byte) (length : Int) : FDec :=
  match fieldDecodeLength raw length with
  | none => .notOk
  | some lo =>
    match readElems 4 raw lo.2 lo.1 with
    | none => .panics
    | some r => .ok (.vArr (r.1.map fun u => .vUint32 u)) r.2

def fieldDecodeInt64SliceSlow (raw : List Byte) (length : Int) : FDec :=
  match fieldDecodeLength raw length with
  | none => .notOk
  | some lo =>
    match readElems 8 raw lo.2 lo.1 with
    | none => .panics
    | some r => .ok (.vArr (r.1.map fun u => .vInt64 (toSigned 64 u))) r.2

def fieldDecodeUint64SliceSlow (raw : List Byte) (length : Int) : FDec :=
  match fieldDecodeLength raw length with
  | none => .notOk
  | some lo =>
    match readElems 8 raw lo.2 lo.1 with
    | none => .panics
    | some r => .ok (.vArr (r.1.map fun u => .vUint64 u)) r.2

def fieldDecodeFloat32SliceSlow (raw : List Byte) (length : Int) : FDec :=
  match fieldDecodeLength raw length with
  | none => .notOk
  | some lo =>
    match readElems 4 raw lo.2 lo.1 with
    | none => .panics
    | some r => .ok (.vArr (r.1.map fun u => .vFloat32bits u)) r.2

def fieldDecodeFloat64SliceSlow (raw : List Byte) (length : Int) : FDec :=
  match fieldDecodeLength raw length with
  | none => .notOk
  | some lo =>
    match readElems 8 raw lo.2 lo.1 with
    | none => .panics
    | some r => .ok (.vArr (r.1.map fun u => .vFloat64bits u)) r.2

/-! ### Variable-width slices (shared by both families) -/

/-- The element loop of `fieldDecodeStringSlice`
(`fieldDecodeString(raw[totalOff:], -1)` per element). -/
def stringSliceLoop (raw : List Byte) : Nat → Nat → Option (List Rosbag.Value × Nat)
  | totalOff, 0 => some ([], totalOff)
  | totalOff, n + 1 =>
    match fieldDecodeString (raw.drop totalOff) (-1) with
    | .ok v off =>
      match stringSliceLoop raw (totalOff + off) n with
      | none => none
      | some r => some (v :: r.1, r.2)
    | _ => none

def fieldDecodeStringSlice (raw : List Byte) (length : Int) : FDec :=
  match fieldDecodeLength raw length with
  | none => .notOk
  | some lo =>
    if lo.1 = 0 then .ok (.vArr []) lo.2
    else
      match stringSliceLoop raw lo.2 lo.1 with
      | none => .notOk
      | some r => .ok (.vArr r.1) r.2

/-- The element loop of `fieldDecodeTimeSlice` / `fieldDecodeDurationSlice`
(8 fixed bytes per element, bounds-checked by the element decoder). -/
def timeSliceLoop (dur : Bool) (raw : List Byte) : Nat → Nat → Option (List Rosbag.Value × Nat)
  | totalOff, 0 => some ([], totalOff)
  | totalOff, n + 1 =>
    match (if dur then fieldDecodeDuration else fieldDecodeTime) (raw.drop totalOff) 0 with
    | .ok v off =>
      match timeSliceLoop dur raw (totalOff + off) n with
      | none => none
      | some r => some (v :: r.1, r.2)
    | _ => none

def fieldDecodeTimeSlice (raw : List Byte) (length : Int) : FDec :=
  match fieldDecodeLength raw length with
  | none => .notOk
  | some lo =>
    match timeSliceLoop false raw lo.2 lo.1 with
    | none => .notOk
    | some r => .ok (.vArr r.1) r.2

def fieldDecodeDurationSlice (raw : List Byte) (length : Int) : FDec :=
  match fieldDecodeLength raw length with
  | none => .notOk
  | some lo =>
    match timeSliceLoop true raw lo.2 lo.1 with
    | none => .notOk
    | some r => .ok (.vArr r.1) r.2

/-! ### Dispatch tables -/

/-- `fieldDecodeBasicHelper`. The map has no `complex` entry, so looking
one up yields Go's nil function — calling it panics; the callers guard
against it. -/
def fieldDecodeBasicHelper : MessageFieldType → List Byte → Int → FDec
  | .bool => fieldDecodeBool
  | .int8 => fieldDecodeInt8
  | .uint8 => fieldDecodeUint8
  | .int16 => fieldDecodeInt16
  | .uint16 => fieldDecodeUint16
  | .int32 => fieldDecodeInt32
  | .uint32 => fieldDecodeUint32
  | .int64 => fieldDecodeInt64
  | .uint64 => fieldDecodeUint64
  | .float32 => fieldDecodeFloat32
  | .float64 => fieldDecodeFloat64
  | .string => fieldDecodeString
  | .time => fieldDecodeTime
  | .duration => fieldDecodeDuration
  | .complex => fun _ _ => .panics

/-- `initFieldSliceDecoder(fastMode)`: `fastMode = true` is the table
installed when the host byte order equals the (little-endian) file byte
order; otherwise the 2-, 4- and 8-byte-wide primitives byte-swap
element-by-element; 1-byte primitives are always safe to alias. -/
def fieldDecodeSliceHelper (fastMode : Bool) : MessageFieldType → List Byte → Int → FDec
  | .bool => fieldDecodeBoolSlice
  | .int8 => fieldDecodeInt8Slice
  | .uint8 => fieldDecodeUint8Slice
  | .int16 => if fastMode then fieldDecodeInt16Slice else fieldDecodeInt16SliceSlow
  | .uint16 => if fastMode then fieldDecodeUint16Slice else fieldDecodeUint16SliceSlow
  | .int32 => if fastMode then fieldDecodeInt32Slice else fieldDecodeInt32SliceSlow
  | .uint32 => if fastMode then fieldDecodeUint32Slice else fieldDecodeUint32SliceSlow
  | .int64 => if fastMode then fieldDecodeInt64Slice else fieldDecodeInt64SliceSlow
  | .uint64 => if fastMode then fieldDecodeUint64Slice else fieldDecodeUint64SliceSlow
  | .float32 => if fastMode then fieldDecodeFloat32Slice else fieldDecodeFloat32SliceSlow
  | .float64 => if fastMode then fieldDecodeFloat64Slice else fieldDecodeFloat64SliceSlow
  | .string => fieldDecodeStringSlice
  | .time => fieldDecodeTimeSlice
  | .duration => fieldDecodeDurationSlice
  | .complex => fun _ _ => .panics

/-! ## Message-data decoding into a dynamic map (`message.go`)

`decodeMessageData` with the `map[string]interface{}` target (the typed
struct target goes through runtime reflection, which is outside the
shallow embedding). `fuel` bounds the recursion into complex
sub-definitions — Go has no such bound and overflows the stack on a
cyclic definition graph; every claim below holds for all fuel values. -/

inductive DRes (α : Type)
  | ok (a : α)
  | err (e : GoErr)
  | panics
  | nofuel

/-- `decodeFieldBasic(field, raw)`. -/
def decodeFieldBasic (fastMode : Bool) (field : MessageFieldDefinition) (raw : List Byte) :
    DRes (Rosbag.Value × List Byte) :=
  let f := if field.IsArray then fieldDecodeSliceHelper fastMode field.«Type»
           else fieldDecodeBasicHelper field.«Type»
  match f raw field.ArraySize with
  | .ok v off => .ok (v, raw.drop off)
  | .notOk => .err .invalidFormat
  | .panics => .panics

mutual

/-- `decodeMessageData(def, raw, data)` for a map target: walk the fields
in declaration order, emitting into the map. -/
def decodeMessageDataMap (fastMode : Bool) (env : List MessageDefinition) :
    Nat → MessageDefinition → List Byte → DRes (List Byte × List (List Byte × Rosbag.Value))
  | 0, _, _ => .nofuel
  | fuel + 1, d, raw => decodeFieldsMap fastMode env fuel d.Fields raw []

/-- The field loop of `decodeMessageData`: constants are emitted without
consuming bytes; non-complex fields go through `decodeFieldBasic`;
complex arrays through `decodeFieldComplexSlice`; scalar complex fields
recurse into a fresh sub-map. -/
def decodeFieldsMap (fastMode : Bool) (env : List MessageDefinition) :
    Nat → List MessageFieldDefinition → List Byte → List (List Byte × Rosbag.Value) →
    DRes (List Byte × List (List Byte × Rosbag.Value))
  | _, [], raw, m => .ok (raw, m)
  | fuel, field :: rest, raw, m =>
    match field.Value with
    | some v => decodeFieldsMap fastMode env fuel rest raw ((field.Name, v) :: m)
    | none =>
      if field.«Type» ≠ .complex then
        match decodeFieldBasic fastMode field raw with
        | .ok vr => decodeFieldsMap fastMode env fuel rest vr.2 ((field.Name, vr.1) :: m)
        | .err e => .err e
        | .panics => .panics
        | .nofuel => .nofuel
      else if field.IsArray then
        match fieldDecodeLength raw field.ArraySize with
        | none => .err .invalidFormat
        | some lo =>
          match decodeComplexLoop fastMode env fuel field.MsgType lo.1 (raw.drop lo.2) with
          | .ok vr => decodeFieldsMap fastMode env fuel rest vr.2 ((field.Name, .vArr vr.1) :: m)
          | .err e => .err e
          | .panics => .panics
          | .nofuel => .nofuel
      else
        match field.MsgType with
        | none => .panics
        | some j =>
          match env.get? j with
          | none => .panics
          | some sub =>
            match decodeMessageDataMap fastMode env fuel sub raw with
            | .ok rm => decodeFieldsMap fastMode env fuel rest rm.1 ((field.Name, .vMap rm.2) :: m)
            | .err e => .err e
            | .panics => .panics
            | .nofuel => .nofuel

/-- The element loop of `decodeFieldComplexSlice`: each element is a
fresh sub-map decoded by a recursive `decodeMessageData` call; a nil
`MsgType` dereference panics. -/
def decodeComplexLoop (fastMode : Bool) (env : List MessageDefinition) :
    Nat → Option Nat → Nat → List Byte → DRes (List Rosbag.Value × List Byte)
  | _, _, 0, raw => .ok ([], raw)
  | fuel, mt, n + 1, raw =>
    match mt with
    | none => .panics
    | some j =>
      match env.get? j with
      | none => .panics
      | some sub =>
        match decodeMessageDataMap fastMode env fuel sub raw with
        | .ok rm =>
          match decodeComplexLoop fastMode env fuel mt n rm.1 with
          | .ok vr => .ok (.vMap rm.2 :: vr.1, vr.2)
          | .err e => .err e
          | .panics => .panics
          | .nofuel => .nofuel
        | .err e => .err e
        | .panics => .panics
        | .nofuel => .nofuel

end

/-! ## Decoder driver (`decoder.go`) -/

/-- The typed record views handed to the caller. `connection` carries the
`conn` id and the parsed header it registered, `messageData` the `conn`
id and the attached registry entry (`connHdr`); in Go these are the
wrapper structs around the same `*RecordBase`. -/
inductive Record
  | bagHeader (b : RecordBase)
  | chunk (b : RecordBase)
  | connection (b : RecordBase) (conn : Nat) (hdr : ConnectionHeader)
  | messageData (b : RecordBase) (conn : Nat) (connHdr : ConnectionHeader)
  | indexData (b : RecordBase)
  | chunkInfo (b : RecordBase)

/-- The third-party decompressors (`bzip2.NewReader`, `lz4.NewReader`):
external collaborators whose only contract is byte-stream in,
decompressed byte-stream out. Theorems quantify over them. -/
structure Cfg where
  bz2 : List Byte → List Byte
  lz4 : List Byte → List Byte

/-- `Decoder`: the buffered primary reader, the optional chunk
sub-reader (already decompressed in this model), the version flag and
the connection registry. -/
structure Decoder where
  reader : List Byte
  chunkReader : Option (List Byte)
  checkedVersion : Bool
  conns : List (Nat × ConnectionHeader)

/-- Go map lookup `decoder.conns[conn]`: the most recent insert wins. -/
def connsLookup (conns : List (Nat × ConnectionHeader)) (k : Nat) :
    Option ConnectionHeader :=
  (conns.find? fun p => p.1 = k).map Prod.snd

/-- `NewDecoder(r)`. -/
def NewDecoder (r : List Byte) : Decoder :=
  { reader := r, chunkReader := none, checkedVersion := false, conns := [] }

/-- A record fresh from `recordPool` (`initialRecordSize` zero bytes). -/
def freshRecord : RecordBase :=
  { Raw := List.replicate initialRecordSize 0, HeaderLen := 0, DataLen := 0 }

/-- Which reader a `decodeRecord` call consumes (`decoder.reader` or
`decoder.chunkReader`). -/
inductive Source
  | primary
  | chunk
  deriving DecidableEq

def Decoder.getStream (d : Decoder) : Source → List Byte
  | .primary => d.reader
  | .chunk => d.chunkReader.getD []

def Decoder.setStream (d : Decoder) : Source → List Byte → Decoder
  | .primary, s => { d with reader := s }
  | .chunk, s => { d with chunkReader := some s }

/-- Match a literal byte sequence at the head of the stream (the literal
runes of an `Fscanf` format), returning the remainder. -/
def stripLit : List Byte → List Byte → Option (List Byte)
  | [], s => some s
  | _ :: _, [] => none
  | c :: cs, b :: bs => if b = c then stripLit cs bs else none

/-- One or more decimal digits taken greedily (`%d` by value). -/
def scanDigits (s : List Byte) : Option (Nat × List Byte) :=
  let ds := s.takeWhile isDigitB
  match digitsVal? ds with
  | none => none
  | some n => some (n, s.drop ds.length)

/-- `decoder.checkVersion()`: `fmt.Fscanf(reader, "#ROSBAG V%d.%d\n", ..)`
against `supportedVersion = 2.0`. `%d` into the unsigned `Version`
fields is modelled as one-or-more decimal digits taken by value (so
`02`/`2`/`200` are distinct spellings of the digits but compare by
value); on a scan failure the stream is left in place (no claim observes
the exact bytes `Fscanf` consumed before failing). -/
def checkVersion (stream : List Byte) : Option GoErr × List Byte :=
  match stripLit (ascii "#ROSBAG V") stream with
  | none => (some .versionScan, stream)
  | some s1 =>
    match scanDigits s1 with
    | none => (some .versionScan, stream)
    | some md =>
      match md.2 with
      | 46 :: s3 =>
        match scanDigits s3 with
        | none => (some .versionScan, stream)
        | some mn =>
          match mn.2 with
          | 10 :: s5 =>
            if md.1 = 2 ∧ mn.1 = 0 then (none, s5)
            else (some .unsupportedVersion, s5)
          | _ => (some .versionScan, stream)
      | _ => (some .versionScan, stream)

/-- `decoder.handleChunk(record)`: reads the `compression` header field,
opens `io.LimitReader(decoder.reader, DataLen)` — modelled eagerly as a
`take`/`drop` split of the primary stream, which agrees with the lazy
limited reader on every record-level observable — wraps it per the
compression name, installs it as the chunk sub-reader, and returns the
chunk record without its body having been read into the record buffer. -/
def handleChunk (cfg : Cfg) (d : Decoder) (record : RecordBase) : Res Record × Decoder :=
  match record.compression with
  | .err e => (.err e, d)
  | .panics => (.panics, d)
  | .ok compression =>
    let body := d.reader.take record.DataLen
    let rest := d.reader.drop record.DataLen
    if compression = ascii "none" then
      (.ok (.chunk record), { d with reader := rest, chunkReader := some body })
    else if compression = ascii "bz2" then
      (.ok (.chunk record), { d with reader := rest, chunkReader := some (cfg.bz2 body) })
    else if compression = ascii "lz4" then
      (.ok (.chunk record), { d with reader := rest, chunkReader := some (cfg.lz4 body) })
    else (.err .unsupportedCompression, d)

/-- `decoder.handleConnection(record)`: parse `conn` and the connection
header from the data section, then register (override) the entry. The
decoder state it touches is exactly the registry, so it is phrased over
the registry. -/
def handleConnection (conns : List (Nat × ConnectionHeader)) (record : RecordBase) :
    Res Record × List (Nat × ConnectionHeader) :=
  match record.conn with
  | .err e => (.err e, conns)
  | .panics => (.panics, conns)
  | .ok conn =>
    match record.connectionHeader? with
    | .err e => (.err e, conns)
    | .panics => (.panics, conns)
    | .ok hdr =>
      (.ok (.connection record conn hdr), (conn, hdr) :: conns)

/-- `decoder.handleMessageData(record)`: look up `conn` in the registry;
absent ⇒ `errNotFoundConnectionHeader`, present ⇒ attach the header. -/
def handleMessageData (conns : List (Nat × ConnectionHeader)) (record : RecordBase) :
    Res Record × List (Nat × ConnectionHeader) :=
  match record.conn with
  | .err e => (.err e, conns)
  | .panics => (.panics, conns)
  | .ok conn =>
    match connsLookup conns conn with
    | none => (.err .notFoundConnectionHeader, conns)
    | some connHdr => (.ok (.messageData record conn connHdr), conns)

/-- The record-buffer steps of `decodeRecord`, named individually:
`grow(off+lenInBytes)`, read, `HeaderLen = endian.Uint32(..)`. -/
def recWithLen (record0 : RecordBase) (bs1 : List Byte) : RecordBase :=
  let r := record0.grow lenInBytes
  { r with Raw := writeAt r.Raw 0 bs1, HeaderLen := leUint32 bs1 }

/-- `grow(off + record.HeaderLen)` and the header read at offset 4. -/
def recWithHeader (record : RecordBase) (hdrBytes : List Byte) : RecordBase :=
  let r := record.grow (lenInBytes + record.HeaderLen)
  { r with Raw := writeAt r.Raw lenInBytes hdrBytes }

/-- `grow(off + lenInBytes)`, the datalen read at offset `4 + HeaderLen`,
`DataLen = endian.Uint32(..)`. -/
def recWithDataLen (record : RecordBase) (dlBytes : List Byte) : RecordBase :=
  let r := record.grow (lenInBytes + record.HeaderLen + lenInBytes)
  { r with
    Raw := writeAt r.Raw (lenInBytes + record.HeaderLen) dlBytes
    DataLen := leUint32 dlBytes }

/-- `grow(off + record.DataLen)` and the data read at `8 + HeaderLen`. -/
def recWithData (record : RecordBase) (dataBytes : List Byte) : RecordBase :=
  let r := record.grow (2 * lenInBytes + record.HeaderLen + record.DataLen)
  { r with Raw := writeAt r.Raw (2 * lenInBytes + record.HeaderLen) dataBytes }

/-- The op dispatch at the tail of `decodeRecord` (every op except
`OpChunk`, which never reaches it). -/
def dispatchOp (op : Nat) (conns : List (Nat × ConnectionHeader)) (record : RecordBase) :
    Res Record × List (Nat × ConnectionHeader) :=
  if op = OpBagHeader then (.ok (.bagHeader record), conns)
  else if op = OpConnection then handleConnection conns record
  else if op = OpMessageData then handleMessageData conns record
  else if op = OpIndexData then (.ok (.indexData record), conns)
  else if op = OpChunkInfo then (.ok (.chunkInfo record), conns)
  else (.err .invalidOp, conns)

/-- The outcome of the reader-local part of `decodeRecord`: either a
completed dispatch (result, final reader position, updated registry), or
— for `OpChunk` — the record handed to `handleChunk` together with the
reader position after the datalen word (the body is deliberately not
read; the next iterations parse it). -/
inductive CoreOut
  | plain (res : Res Record) (stream' : List Byte) (conns' : List (Nat × ConnectionHeader))
  | chunky (record : RecordBase) (stream' : List Byte)

/-- `decoder.decodeRecord(r, record)` as a function of the reader `r` it
consumes and the registry: `<u32LE hdrlen><hdr>`, the `op` lookup,
`<u32LE datalen>`, then either the chunk hand-off or the body read and
the op dispatch. -/
def decodeRecordCore (stream : List Byte) (conns : List (Nat × ConnectionHeader))
    (record0 : RecordBase) : CoreOut :=
  let r1 := readFull stream lenInBytes
  match r1.1 with
  | .err e => .plain (.err e) r1.2 conns
  | .panics => .plain .panics r1.2 conns
  | .ok bs1 =>
    let record2 := recWithLen record0 bs1
    let r2 := readFull r1.2 record2.HeaderLen
    match r2.1 with
    | .err e => .plain (.err e) r2.2 conns
    | .panics => .plain .panics r2.2 conns
    | .ok hdrBytes =>
      let record4 := recWithHeader record2 hdrBytes
      match record4.op with
      | .err e => .plain (.err e) r2.2 conns
      | .panics => .plain .panics r2.2 conns
      | .ok op =>
        let r3 := readFull r2.2 lenInBytes
        match r3.1 with
        | .err e => .plain (.err e) r3.2 conns
        | .panics => .plain .panics r3.2 conns
        | .ok dlBytes =>
          let record6 := recWithDataLen record4 dlBytes
          if op = OpChunk then .chunky record6 r3.2
          else
            let r4 := readFull r3.2 record6.DataLen
            match r4.1 with
            | .err e => .plain (.err e) r4.2 conns
            | .panics => .plain .panics r4.2 conns
            | .ok dataBytes =>
              let record8 := recWithData record6 dataBytes
              let dr := dispatchOp op conns record8
              .plain dr.1 r4.2 dr.2

/-- `decoder.decodeRecord(r, record)` with `r` the reader selected by
`src`: applies the core's effects to the decoder; the chunk hand-off
goes to `handleChunk` (which reads the primary reader). -/
def decodeRecord (cfg : Cfg) (d0 : Decoder) (src : Source) (record0 : RecordBase) :
    Res Record × Decoder :=
  match decodeRecordCore (d0.getStream src) d0.conns record0 with
  | .plain res stream' conns' => (res, { d0.setStream src stream' with conns := conns' })
  | .chunky record stream' => handleChunk cfg (d0.setStream src stream') record

/-- `decoder.Read()` after the version check: try the chunk sub-reader
first; its `io.EOF` discards the sub-reader and falls through to the
primary source. -/
def Decoder.readBody (cfg : Cfg) (d1 : Decoder) : Res Record × Decoder :=
  let record := freshRecord
  match d1.chunkReader with
  | some _ =>
    let r := decodeRecord cfg d1 .chunk record
    match r.1 with
    | .ok rec => (.ok rec, r.2)
    | .err .eof => decodeRecord cfg { r.2 with chunkReader := none } .primary record
    | .err e => (.err e, r.2)
    | .panics => (.panics, r.2)
  | none => decodeRecord cfg d1 .primary record

/-- `decoder.Read()`. -/
def Decoder.read (cfg : Cfg) (d0 : Decoder) : Res Record × Decoder :=
  if d0.checkedVersion then d0.readBody cfg
  else
    match checkVersion d0.reader with
    | (some e, rest) => (.err e, { d0 with reader := rest })
    | (none, rest) => Decoder.readBody cfg { d0 with reader := rest, checkedVersion := true }

/-- The results of `n` consecutive `Read` calls together with the final
decoder state. -/
def readTrace (cfg : Cfg) : Nat → Decoder → List (Res Record) × Decoder
  | 0, d => ([], d)
  | n + 1, d =>
    let r := d.read cfg
    let t := readTrace cfg n r.2
    (r.1 :: t.1, t.2)

/-- The connection registry determined by a list of returned records:
each successfully returned Connection record registers (overrides) its
`conn` id. -/
def registryOf (init : List (Nat × ConnectionHeader)) :
    List (Res Record) → List (Nat × ConnectionHeader)
  | [] => init
  | .ok (.connection _ conn hdr) :: rest => registryOf ((conn, hdr) :: init) rest
  | _ :: rest => registryOf init rest

/-- The most recent successfully returned Connection record carrying
`conn` id `c` in a trace, if any (later trace entries win). -/
def lastConn : List (Res Record) → Nat → Option ConnectionHeader
  | [], _ => none
  | a :: rest, c =>
    match lastConn rest c with
    | some h => some h
    | none =>
      match a with
      | .ok (.connection _ c' h) => if c' = c then some h else none
      | _ => none

/-- Decode a whole byte sequence as consecutive non-chunk records with a
threaded registry (the framing of a chunk body); `none` when a record
fails to decode, is itself a chunk, or `fuel` runs out. -/
def decodeAll : Nat → List (Nat × ConnectionHeader) → List Byte →
    Option (List Record × List (Nat × ConnectionHeader))
  | 0, _, _ => none
  | fuel + 1, conns, bytes =>
    if bytes = [] then some ([], conns)
    else
      match decodeRecordCore bytes conns freshRecord with
      | .plain (.ok r) stream' conns' =>
        (decodeAll fuel conns' stream').map fun p => (r :: p.1, p.2)
      | _ => none

/-- The decompressor `handleChunk` selects for a compression name. -/
def chunkDecompress (cfg : Cfg) (comp : List Byte) (body : List Byte) : List Byte :=
  if comp = ascii "none" then body
  else if comp = ascii "bz2" then cfg.bz2 body
  else if comp = ascii "lz4" then cfg.lz4 body
  else body

/-- The base record inside a typed view. -/
def recordBaseOf : Record → RecordBase
  | .bagHeader b => b
  | .chunk b => b
  | .connection b _ _ => b
  | .messageData b _ _ => b
  | .indexData b => b
  | .chunkInfo b => b

def returnedBase? : Res Record → Option RecordBase
  | .ok r => some (recordBaseOf r)
  | _ => none

def isChunkRec : Record → Bool
  | .chunk _ => true
  | _ => false

def isChunkRes : Res Record → Bool
  | .ok r => isChunkRec r
  | _ => false

def errOfRes : Res Record → Option GoErr
  | .err e => some e
  | _ => none

def isPanicRes : Res Record → Bool
  | .panics => true
  | _ => false

/-! ## Concrete fixtures used by the claim-level theorems -/

/-- The record buffer as built by a full (non-chunk) `decodeRecord` pass
over one encoded frame. -/
def builtRec (rec0 : RecordBase) (hdr data : List Byte) : RecordBase :=
  recWithData (recWithDataLen (recWithHeader (recWithLen rec0 (le32 hdr.length)) hdr)
    (le32 data.length)) data

/-- The record buffer as built for a chunk record (no data read). -/
def builtChunkRec (rec0 : RecordBase) (hdr : List Byte) (bodyLen : Nat) : RecordBase :=
  recWithDataLen (recWithHeader (recWithLen rec0 (le32 hdr.length)) hdr) (le32 bodyLen)

/-- An identity configuration for the external decompressors (only the
`"none"` compression path is exercised concretely). -/
def idCfg : Cfg := { bz2 := id, lz4 := id }

def versionPreamble : List Byte := ascii "#ROSBAG V2.0\n"

/-- A BagHeader record frame with header `op=\x03` and empty body. -/
def bagHdrFrame : List Byte := encodeFrame (encodeField (ascii "op") [OpBagHeader]) []

/-- A frame whose header carries an `op` field with an *empty* value. -/
def emptyOpFrame : List Byte := encodeFrame (encodeField (ascii "op") []) []

/-- A frame whose header has a field but no `op` field. -/
def noOpFrame : List Byte := encodeFrame (encodeHeader [(ascii "a", ascii "b")]) []

/-- A frame with `hdrlen == 0` (legal empty header). -/
def emptyHdrFrame : List Byte := encodeFrame [] []

/-- A frame with an unknown op byte `0x09`. -/
def badOpFrame : List Byte := encodeFrame (encodeField (ascii "op") [9]) []

def chunkInfoFrame : List Byte := encodeFrame (encodeField (ascii "op") [OpChunkInfo]) []

def indexDataFrame : List Byte := encodeFrame (encodeField (ascii "op") [OpIndexData]) []

/-- A chunk record header: `op=\x05`, `compression=none`. -/
def chunkHdrNone : List Byte :=
  encodeField (ascii "op") [OpChunk] ++ encodeField (ascii "compression") (ascii "none")

/-- A MessageData record header referencing conn id 7. -/
def msgHdr7 : List Byte :=
  encodeField (ascii "op") [OpMessageData] ++ encodeField (ascii "conn") [7, 0, 0, 0]

def msgFrame7 : List Byte := encodeFrame msgHdr7 []

/-- An (empty) connection header value for registry fixtures. -/
def ch0 : ConnectionHeader :=
  { Topic := [], «Type» := [], MD5Sum := [], MessageDefinition := [] }

/-- An unknown-op frame followed by a ChunkInfo frame (for the error
recovery trace). -/
def c6stream : List Byte := versionPreamble ++ (badOpFrame ++ chunkInfoFrame)

/-- A chunk frame head announcing an 8192-byte body that the stream does
not contain. -/
def c9stream : List Byte :=
  versionPreamble ++ (le32 chunkHdrNone.length ++ (chunkHdrNone ++ le32 8192))

/-- Two framed records — the body of a `compression=none` chunk. -/
def c1body : List Byte := bagHdrFrame ++ indexDataFrame

/-- A full chunk (compression `none`, body `c1body`) followed by a
ChunkInfo frame in the primary stream. -/
def c1stream : List Byte :=
  versionPreamble ++ (le32 chunkHdrNone.length ++ (chunkHdrNone ++
    (le32 c1body.length ++ (c1body ++ chunkInfoFrame))))

/-- The field `int32[] x` — one dynamic int32 array field. -/
def c3field : MessageFieldDefinition :=
  { «Type» := .int32, Name := ascii "x", IsArray := true, ArraySize := -1,
    Value := none, MsgType := none }

def c3def : MessageDefinition := { «Type» := [], Fields := [c3field] }

def c7src : List Byte := ascii "int32 STATE = -1\nint32 x\n"

/-- The constant field `int32 STATE = -1` as parsed. -/
def c7fieldState : MessageFieldDefinition :=
  { «Type» := .int32, Name := ascii "STATE", IsArray := false, ArraySize := -1,
    Value := some (.vInt32 (-1)), MsgType := none }

/-- The plain field `int32 x` as parsed. -/
def c7fieldX : MessageFieldDefinition :=
  { «Type» := .int32, Name := ascii "x", IsArray := false, ArraySize := -1,
    Value := none, MsgType := none }

/-- The definition `unmarshall` produces for `c7src`. -/
def c7def : MessageDefinition := { «Type» := [], Fields := [c7fieldState, c7fieldX] }

/-- The record a successful BagHeader read of `bagHdrFrame` returns. -/
def bagRec : RecordBase := builtRec freshRecord (encodeField (ascii "op") [OpBagHeader]) []

/-- The record a successful IndexData read of `indexDataFrame` returns. -/
def idxRec : RecordBase := builtRec freshRecord (encodeField (ascii "op") [OpIndexData]) []

/-- A decoder positioned (version already checked) at the head of the
chunk frame of `c1stream`. -/
def dC1 : Decoder :=
  { reader := le32 chunkHdrNone.length ++ (chunkHdrNone ++ (le32 c1body.length ++ (c1body ++ chunkInfoFrame)))
    chunkReader := none
    checkedVersion := true
    conns := [] }

/-- The decoder state right after the chunk of `c1stream` was installed. -/
def dC2 : Decoder :=
  { reader := chunkInfoFrame, chunkReader := some c1body, checkedVersion := true, conns := [] }

def isOkBagHeader : Res Record → Bool
  | .ok (.bagHeader _) => true
  | _ => false

def isOkChunkInfo : Res Record → Bool
  | .ok (.chunkInfo _) => true
  | _ => false

/-! # Lemmas -/

/-! ## Byte-level facts -/

theorem le32_length (n : Nat) : (le32 n).length = 4 := rfl

theorem leUint32_le32 (n : Nat) (h : n < 2 ^ 32) : leUint32 (le32 n) = n := by
  simp only [le32, leUint32, leUint32?, Option.getD_some]
  omega

theorem leUint32_le32_mod (n : Nat) : leUint32 (le32 n) = n % 2 ^ 32 := by
  simp only [le32, leUint32, leUint32?, Option.getD_some]
  omega

/-! ## readFull -/

theorem readFull_exact (bs t : List Byte) (n : Nat) (h : bs.length = n) :
    readFull (bs ++ t) n = (.ok bs, t) := by
  simp [readFull, ← h, List.take_left, List.drop_left]

theorem readFull_ok (s : List Byte) (n : Nat) (bs s₂ : List Byte)
    (h : readFull s n = (.ok bs, s₂)) :
    bs = s.take n ∧ s₂ = s.drop n ∧ bs.length = n ∧ n ≤ s.length := by
  unfold readFull at h
  split at h
  · next hle =>
    injection h with h1 h2
    injection h1 with h1
    subst h2
    refine ⟨h1.symm, rfl, ?_, hle⟩
    simp [← h1, List.length_take]
    omega
  · split at h <;> simp_all

theorem readFull_nil (n : Nat) (h : 0 < n) : readFull [] n = (.err .eof, []) := by
  simp [readFull]
  omega

/-! ## Buffer construction -/

@[simp] theorem grow_HeaderLen (r : RecordBase) (n : Nat) :
    (r.grow n).HeaderLen = r.HeaderLen := by
  unfold RecordBase.grow
  split <;> rfl

@[simp] theorem grow_DataLen (r : RecordBase) (n : Nat) :
    (r.grow n).DataLen = r.DataLen := by
  unfold RecordBase.grow
  split <;> rfl

theorem grow_raw (r : RecordBase) (n : Nat) :
    ∃ pad, (r.grow n).Raw = r.Raw ++ pad ∧ n ≤ (r.grow n).Raw.length := by
  unfold RecordBase.grow
  split
  · refine ⟨_, rfl, ?_⟩
    simp only [List.length_append, List.length_replicate]
    omega
  · exact ⟨[], by simp, by omega⟩

theorem writeAt_exact (x t bs : List Byte) (off : Nat) (h : x.length = off) :
    writeAt (x ++ t) off bs = x ++ bs ++ t.drop bs.length := by
  simp [writeAt, List.take_left' h, List.drop_append_eq_append_drop, h]

theorem goSlice_exact (x mid t : List Byte) (lo n : Nat)
    (hx : x.length = lo) (hm : mid.length = n) :
    goSlice (x ++ mid ++ t) lo (lo + n) = some mid := by
  unfold goSlice
  rw [if_pos]
  · congr 1
    rw [show x ++ mid ++ t = x ++ (mid ++ t) by simp, List.drop_left' hx]
    simpa using List.take_left' hm
  · constructor
    · omega
    · simp only [List.length_append]
      omega

/-- `recWithLen` on a 4-byte length word. -/
theorem recWithLen_repr (rec0 : RecordBase) (bs1 : List Byte) (h : bs1.length = 4) :
    ∃ t, (recWithLen rec0 bs1).Raw = bs1 ++ t ∧
      (recWithLen rec0 bs1).HeaderLen = leUint32 bs1 ∧
      (recWithLen rec0 bs1).DataLen = rec0.DataLen := by
  obtain ⟨pad, hp, hlen⟩ := grow_raw rec0 lenInBytes
  refine ⟨((rec0.grow lenInBytes).Raw).drop (0 + bs1.length), ?_, rfl, by simp [recWithLen]⟩
  simp only [recWithLen, writeAt, List.take_zero, List.nil_append]

theorem recWithHeader_repr (rb : RecordBase) (pre t0 hdr : List Byte)
    (hraw : rb.Raw = pre ++ t0) (hp : pre.length = lenInBytes)
    (hh : hdr.length = rb.HeaderLen) :
    ∃ t, (recWithHeader rb hdr).Raw = pre ++ hdr ++ t ∧
      (recWithHeader rb hdr).HeaderLen = rb.HeaderLen ∧
      (recWithHeader rb hdr).DataLen = rb.DataLen := by
  obtain ⟨pad, hgrow, hlen⟩ := grow_raw rb (lenInBytes + rb.HeaderLen)
  refine ⟨(t0 ++ pad).drop (rb.HeaderLen), ?_, by simp [recWithHeader], by simp [recWithHeader]⟩
  simp only [recWithHeader, hgrow, hraw, List.append_assoc]
  rw [writeAt_exact pre (t0 ++ pad) hdr lenInBytes hp]
  simp [hh]

theorem recWithDataLen_repr (rb : RecordBase) (pre t0 dl : List Byte)
    (hraw : rb.Raw = pre ++ t0) (hp : pre.length = lenInBytes + rb.HeaderLen)
    (hd : dl.length = lenInBytes) :
    ∃ t, (recWithDataLen rb dl).Raw = pre ++ dl ++ t ∧
      (recWithDataLen rb dl).HeaderLen = rb.HeaderLen ∧
      (recWithDataLen rb dl).DataLen = leUint32 dl := by
  obtain ⟨pad, hgrow, hlen⟩ := grow_raw rb (lenInBytes + rb.HeaderLen + lenInBytes)
  refine ⟨(t0 ++ pad).drop dl.length, ?_, by simp [recWithDataLen], by simp [recWithDataLen]⟩
  simp only [recWithDataLen, hgrow, hraw, List.append_assoc]
  rw [writeAt_exact pre (t0 ++ pad) dl (lenInBytes + rb.HeaderLen) hp]
  simp [List.append_assoc]

theorem recWithData_repr (rb : RecordBase) (pre t0 data : List Byte)
    (hraw : rb.Raw = pre ++ t0) (hp : pre.length = 2 * lenInBytes + rb.HeaderLen)
    (hd : data.length = rb.DataLen) :
    ∃ t, (recWithData rb data).Raw = pre ++ data ++ t ∧
      (recWithData rb data).HeaderLen = rb.HeaderLen ∧
      (recWithData rb data).DataLen = rb.DataLen := by
  obtain ⟨pad, hgrow, hlen⟩ := grow_raw rb (2 * lenInBytes + rb.HeaderLen + rb.DataLen)
  refine ⟨(t0 ++ pad).drop data.length, ?_, by simp [recWithData], by simp [recWithData]⟩
  simp only [recWithData, hgrow, hraw, List.append_assoc]
  rw [writeAt_exact pre (t0 ++ pad) data (2 * lenInBytes + rb.HeaderLen) hp]
  simp [List.append_assoc]

theorem header?_of_repr (rb : RecordBase) (pre hdr t : List Byte)
    (hraw : rb.Raw = pre ++ hdr ++ t) (hp : pre.length = lenInBytes)
    (hh : hdr.length = rb.HeaderLen) :
    rb.header? = some hdr := by
  unfold RecordBase.header?
  rw [hraw, ← hp, ← hh, show pre.length + hdr.length = pre.length + hdr.length from rfl]
  exact goSlice_exact pre hdr t pre.length hdr.length rfl rfl

theorem data?_of_repr (rb : RecordBase) (pre data t : List Byte)
    (hraw : rb.Raw = pre ++ data ++ t) (hp : pre.length = 2 * lenInBytes + rb.HeaderLen)
    (hd : data.length = rb.DataLen) :
    rb.data? = some data := by
  unfold RecordBase.data?
  rw [hraw, ← hp, ← hd]
  exact goSlice_exact pre data t pre.length data.length rfl rfl

/-! ## Header-field iteration over well-formed fields -/

theorem findIdx?_first_delim (k t : List Byte) (hk : headerFieldDelimiter ∉ k) :
    (k ++ headerFieldDelimiter :: t).findIdx? (· = headerFieldDelimiter) = some k.length := by
  induction k with
  | nil => simp
  | cons a k ih =>
    have ha : a ≠ headerFieldDelimiter := fun hEq => hk (by simp [hEq])
    have hk' : headerFieldDelimiter ∉ k := fun hmem => hk (List.mem_cons_of_mem _ hmem)
    simp only [List.cons_append, List.findIdx?_cons]
    rw [if_neg (by simpa using ha), List.findIdx?_succ, ih hk']
    rfl

theorem leUint32_le32_append (n : Nat) (t : List Byte) (h : n < 2 ^ 32) :
    leUint32 (le32 n ++ t) = n := by
  simp only [le32, List.cons_append, List.nil_append, leUint32, leUint32?, Option.getD_some]
  omega

/-- Processing one well-formed header field: the callback sees `(k, v)`
and iteration proceeds on the remainder exactly when it returns
`continue`. -/
theorem iterateHeaderFields_field {σ : Type} (cb : σ → List Byte → List Byte → σ × Bool)
    (k v rest2 : List Byte) (s : σ)
    (hk : headerFieldDelimiter ∉ k) (hlen : k.length + 1 + v.length < 2 ^ 32) :
    iterateHeaderFields cb (encodeField k v ++ rest2) s =
      (if (cb s k v).2 then iterateHeaderFields cb rest2 (cb s k v).1
       else ((cb s k v).1, none)) := by
  have hEnc : encodeField k v ++ rest2 =
      le32 (k.length + 1 + v.length) ++ (k ++ headerFieldDelimiter :: (v ++ rest2)) := by
    simp [encodeField, List.append_assoc]
  have hfl : leUint32 (le32 (k.length + 1 + v.length) ++
      (k ++ headerFieldDelimiter :: (v ++ rest2))) = k.length + 1 + v.length :=
    leUint32_le32_append _ _ hlen
  have hdrop : (le32 (k.length + 1 + v.length) ++
      (k ++ headerFieldDelimiter :: (v ++ rest2))).drop lenInBytes =
      k ++ headerFieldDelimiter :: (v ++ rest2) :=
    List.drop_left' (le32_length _)
  rw [hEnc, iterateHeaderFields]
  rw [if_neg (by simp [le32])]
  rw [if_neg (by simp [le32, lenInBytes])]
  rw [hdrop, hfl]
  rw [if_neg (by simp only [List.length_append, List.length_cons]; omega)]
  rw [findIdx?_first_delim k (v ++ rest2) hk]
  have htake : (k ++ headerFieldDelimiter :: (v ++ rest2)).take k.length = k :=
    List.take_left' rfl
  have hdrop2 : (k ++ headerFieldDelimiter :: (v ++ rest2)).drop (k.length + 1) = v ++ rest2 := by
    rw [show k ++ headerFieldDelimiter :: (v ++ rest2) =
        (k ++ [headerFieldDelimiter]) ++ (v ++ rest2) by simp]
    exact List.drop_left' (by simp)
  have htake2 : (v ++ rest2).take (k.length + 1 + v.length - (k.length + 1)) = v := by
    rw [show k.length + 1 + v.length - (k.length + 1) = v.length by omega]
    exact List.take_left' rfl
  have hdrop3 : (k ++ headerFieldDelimiter :: (v ++ rest2)).drop (k.length + 1 + v.length) =
      rest2 := by
    rw [show k ++ headerFieldDelimiter :: (v ++ rest2) =
        (k ++ headerFieldDelimiter :: v) ++ rest2 by simp]
    exact List.drop_left' (by simp; omega)
  simp only [htake, hdrop2, htake2, hdrop3]
  rw [if_neg (by omega)]

/-- An empty header iterates to nothing. -/
theorem iterateHeaderFields_nil {σ : Type} (cb : σ → List Byte → List Byte → σ × Bool) (s : σ) :
    iterateHeaderFields cb [] s = (s, none) := by
  rw [iterateHeaderFields]
  rfl

/-- A well-formed field list whose keys avoid `k` and contain no `'='`. -/
def wfFields (fields : List (List Byte × List Byte)) (k : List Byte) : Prop :=
  ∀ kv ∈ fields, headerFieldDelimiter ∉ kv.1 ∧ kv.1 ≠ k ∧
    kv.1.length + 1 + kv.2.length < 2 ^ 32

/-- `findField`'s scan returns the first field keyed `k` and stops there:
whatever follows that field — further well-formed fields, duplicates of
`k`, or arbitrary junk — is never examined. -/
theorem findFieldCore_first (pre : List (List Byte × List Byte)) (k v junk : List Byte)
    (hk : headerFieldDelimiter ∉ k) (hkv : k.length + 1 + v.length < 2 ^ 32)
    (hpre : wfFields pre k) :
    findFieldCore (encodeHeader pre ++ (encodeField k v ++ junk)) k = .ok v := by
  unfold findFieldCore
  have core : ∀ fields, wfFields fields k →
      iterateHeaderFields (σ := Option (List Byte))
        (fun acc currentKey currentValue =>
          if currentKey = k then (some currentValue, false) else (acc, true))
        (encodeHeader fields ++ (encodeField k v ++ junk)) none = (some v, none) := by
    intro fields hf
    induction fields with
    | nil =>
      simp only [encodeHeader, List.map_nil, List.flatten_nil, List.nil_append]
      rw [iterateHeaderFields_field _ k v junk none hk hkv]
      simp
    | cons kv fields ih =>
      have h1 := hf kv (by simp)
      have h2 : wfFields fields k := fun x hx => hf x (List.mem_cons_of_mem _ hx)
      simp only [encodeHeader, List.map_cons, List.flatten_cons, List.append_assoc]
      rw [iterateHeaderFields_field _ kv.1 kv.2 _ none h1.1 h1.2.2]
      rw [if_pos (by simp [h1.2.1])]
      rw [if_neg h1.2.1]
      have := ih h2
      simp only [encodeHeader, List.append_assoc] at this
      simpa using this
  rw [core pre hpre]

/-! ## Record accessors through a known header / data slice -/

theorem op_of_header (rb : RecordBase) (hdr : List Byte) (h : rb.header? = some hdr) :
    rb.op = opOfHeader hdr := by
  unfold RecordBase.op
  rw [h]

theorem compression_of_header (rb : RecordBase) (hdr : List Byte)
    (h : rb.header? = some hdr) :
    rb.compression = compressionOfHeader hdr := by
  unfold RecordBase.compression
  rw [h]

theorem conn_of_header (rb : RecordBase) (hdr : List Byte) (h : rb.header? = some hdr) :
    rb.conn = connOfHeader hdr := by
  unfold RecordBase.conn
  rw [h]

theorem connectionHeader_of_data (rb : RecordBase) (data : List Byte)
    (h : rb.data? = some data) :
    rb.connectionHeader? = connHdrOfData data := by
  unfold RecordBase.connectionHeader?
  rw [h]

/-! ## Decoding one encoded frame -/

/-- Decoding a well-formed non-chunk frame from the head of a stream:
the record buffer receives exactly the header and data, the stream
advances past the frame, and the result is the op dispatch. -/
theorem decodeRecordCore_frame (stream : List Byte) (conns : List (Nat × ConnectionHeader))
    (rec0 : RecordBase) (hdr data rest : List Byte) (op : Nat)
    (hs : stream = encodeFrame hdr data ++ rest)
    (hhl : hdr.length < 2 ^ 32) (hdl : data.length < 2 ^ 32)
    (hop : opOfHeader hdr = .ok op) (hnc : op ≠ OpChunk) :
    ∃ rb : RecordBase,
      rb = builtRec rec0 hdr data ∧
      rb.HeaderLen = hdr.length ∧ rb.DataLen = data.length ∧
      rb.header? = some hdr ∧ rb.data? = some data ∧
      decodeRecordCore stream conns rec0 =
        .plain (dispatchOp op conns rb).1 rest (dispatchOp op conns rb).2 := by
  have hstream : stream = le32 hdr.length ++ (hdr ++ (le32 data.length ++ (data ++ rest))) := by
    rw [hs]
    simp [encodeFrame, List.append_assoc]
  -- the record buffer stages
  obtain ⟨t2, hr2, hH2, hD2⟩ := recWithLen_repr rec0 (le32 hdr.length) (le32_length _)
  have hH2' : (recWithLen rec0 (le32 hdr.length)).HeaderLen = hdr.length := by
    rw [hH2, leUint32_le32 _ hhl]
  obtain ⟨t4, hr4, hH4, hD4⟩ :=
    recWithHeader_repr (recWithLen rec0 (le32 hdr.length)) (le32 hdr.length) t2 hdr hr2
      (le32_length _) (by rw [hH2'])
  set record4 := recWithHeader (recWithLen rec0 (le32 hdr.length)) hdr with hrec4
  have hH4' : record4.HeaderLen = hdr.length := by rw [hH4, hH2']
  have hhdr4 : record4.header? = some hdr :=
    header?_of_repr record4 (le32 hdr.length) hdr t4 hr4 (le32_length _) (by rw [hH4'])
  have hop4 : record4.op = .ok op := by
    rw [op_of_header record4 hdr hhdr4]
    exact hop
  obtain ⟨t6, hr6, hH6, hD6⟩ :=
    recWithDataLen_repr record4 (le32 hdr.length ++ hdr) t4 (le32 data.length)
      (by rw [hr4]; try simp [List.append_assoc])
      (by simp only [List.length_append, le32_length, hH4', lenInBytes]; try omega) (le32_length _)
  set record6 := recWithDataLen record4 (le32 data.length) with hrec6
  have hH6' : record6.HeaderLen = hdr.length := by rw [hH6, hH4']
  have hD6' : record6.DataLen = data.length := by rw [hD6, leUint32_le32 _ hdl]
  obtain ⟨t8, hr8, hH8, hD8⟩ :=
    recWithData_repr record6 ((le32 hdr.length ++ hdr) ++ le32 data.length) t6 data
      (by rw [hr6]; try simp [List.append_assoc])
      (by simp only [List.length_append, le32_length, hH6', lenInBytes]; omega) (by rw [hD6'])
  set record8 := recWithData record6 data with hrec8
  have hH8' : record8.HeaderLen = hdr.length := by rw [hH8, hH6']
  have hD8' : record8.DataLen = data.length := by rw [hD8, hD6']
  have hhdr8 : record8.header? = some hdr := by
    refine header?_of_repr record8 (le32 hdr.length) hdr
      ((le32 data.length ++ data) ++ t8) ?_ (le32_length _) (by rw [hH8'])
    rw [hr8]
    try simp [List.append_assoc]
  have hdata8 : record8.data? = some data := by
    refine data?_of_repr record8 ((le32 hdr.length ++ hdr) ++ le32 data.length) data t8
      (by rw [hr8]) ?_ (by rw [hD8'])
    simp only [List.length_append, le32_length, hH8', lenInBytes]
    omega
  refine ⟨record8, by rw [hrec8, hrec6, hrec4]; rfl, hH8', hD8', hhdr8, hdata8, ?_⟩
  -- now drive the computation
  simp only [decodeRecordCore]
  rw [hstream]
  simp only [lenInBytes]
  rw [readFull_exact _ _ _ (le32_length hdr.length)]
  dsimp only
  rw [hH2', readFull_exact hdr _ _ rfl]
  dsimp only
  rw [← hrec4, hop4]
  dsimp only
  rw [readFull_exact _ _ _ (le32_length data.length)]
  dsimp only
  rw [← hrec6, if_neg hnc, hD6', readFull_exact data rest _ rfl]

/-- Decoding a chunk frame head (`<hdrlen><hdr><datalen>` with
`op = OpChunk`): the body is *not* read; the core hands the record to
`handleChunk` with the stream positioned right after the datalen word. -/
theorem decodeRecordCore_chunk (stream : List Byte) (conns : List (Nat × ConnectionHeader))
    (rec0 : RecordBase) (hdr : List Byte) (bodyLen : Nat) (rest : List Byte)
    (hs : stream = le32 hdr.length ++ (hdr ++ (le32 bodyLen ++ rest)))
    (hhl : hdr.length < 2 ^ 32) (hbl : bodyLen < 2 ^ 32)
    (hop : opOfHeader hdr = .ok OpChunk) :
    ∃ rb : RecordBase,
      rb = builtChunkRec rec0 hdr bodyLen ∧
      rb.HeaderLen = hdr.length ∧ rb.DataLen = bodyLen ∧ rb.header? = some hdr ∧
      decodeRecordCore stream conns rec0 = .chunky rb rest := by
  obtain ⟨t2, hr2, hH2, hD2⟩ := recWithLen_repr rec0 (le32 hdr.length) (le32_length _)
  have hH2' : (recWithLen rec0 (le32 hdr.length)).HeaderLen = hdr.length := by
    rw [hH2, leUint32_le32 _ hhl]
  obtain ⟨t4, hr4, hH4, hD4⟩ :=
    recWithHeader_repr (recWithLen rec0 (le32 hdr.length)) (le32 hdr.length) t2 hdr hr2
      (le32_length _) (by rw [hH2'])
  set record4 := recWithHeader (recWithLen rec0 (le32 hdr.length)) hdr with hrec4
  have hH4' : record4.HeaderLen = hdr.length := by rw [hH4, hH2']
  have hhdr4 : record4.header? = some hdr :=
    header?_of_repr record4 (le32 hdr.length) hdr t4 hr4 (le32_length _) (by rw [hH4'])
  have hop4 : record4.op = .ok OpChunk := by
    rw [op_of_header record4 hdr hhdr4]
    exact hop
  obtain ⟨t6, hr6, hH6, hD6⟩ :=
    recWithDataLen_repr record4 (le32 hdr.length ++ hdr) t4 (le32 bodyLen)
      (by rw [hr4]; try simp [List.append_assoc])
      (by simp only [List.length_append, le32_length, hH4', lenInBytes]; try omega)
      (le32_length _)
  set record6 := recWithDataLen record4 (le32 bodyLen) with hrec6
  have hH6' : record6.HeaderLen = hdr.length := by rw [hH6, hH4']
  have hD6' : record6.DataLen = bodyLen := by rw [hD6, leUint32_le32 _ hbl]
  have hhdr6 : record6.header? = some hdr := by
    refine header?_of_repr record6 (le32 hdr.length) hdr ((hdr.drop hdr.length) ++ (le32 bodyLen ++ t6)) ?_
      (le32_length _) (by rw [hH6'])
    rw [hr6]
    simp [List.append_assoc]
  refine ⟨record6, by rw [hrec6, hrec4]; rfl, hH6', hD6', hhdr6, ?_⟩
  simp only [decodeRecordCore]
  rw [hs]
  simp only [lenInBytes]
  rw [readFull_exact _ _ _ (le32_length hdr.length)]
  dsimp only
  rw [hH2', readFull_exact hdr _ _ rfl]
  dsimp only
  rw [← hrec4, hop4]
  dsimp only
  rw [readFull_exact _ _ _ (le32_length bodyLen)]
  dsimp only
  rw [← hrec6, if_pos rfl]

/-! ## Analysis of `decodeRecordCore` on arbitrary streams -/

/-- The op dispatch wraps the record it is given. -/
theorem dispatchOp_base (op : Nat) (conns : List (Nat × ConnectionHeader)) (rb : RecordBase)
    (rec : Record) (h : (dispatchOp op conns rb).1 = .ok rec) :
    recordBaseOf rec = rb := by
  unfold dispatchOp handleConnection handleMessageData at h
  repeat' split at h
  all_goals first
    | (cases h; rfl)
    | (cases h)
    | simp_all [recordBaseOf]

/-- The registry after the op dispatch: unchanged, or extended by the
connection that the returned Connection record registered. -/
theorem dispatchOp_conns (op : Nat) (conns : List (Nat × ConnectionHeader)) (rb : RecordBase) :
    (dispatchOp op conns rb).2 = conns ∨
    ∃ rc cn h, (dispatchOp op conns rb).1 = .ok (.connection rc cn h) ∧
      (dispatchOp op conns rb).2 = (cn, h) :: conns := by
  unfold dispatchOp handleConnection handleMessageData
  repeat' split
  all_goals try (left; rfl)
  right
  exact ⟨rb, _, _, rfl, rfl⟩

/-- The registry across one `decodeRecordCore` call: unchanged unless the
call returned a Connection record, which it then registered. -/
theorem decodeRecordCore_conns (stream : List Byte) (conns : List (Nat × ConnectionHeader))
    (rec0 : RecordBase) (res : Res Record) (s' : List Byte)
    (c' : List (Nat × ConnectionHeader))
    (h : decodeRecordCore stream conns rec0 = .plain res s' c') :
    c' = conns ∨ ∃ rc cn hd, res = .ok (.connection rc cn hd) ∧ c' = (cn, hd) :: conns := by
  simp only [decodeRecordCore] at h
  repeat' split at h
  all_goals cases h
  all_goals try exact Or.inl rfl
  exact dispatchOp_conns _ conns _

/-- The record buffer built by the full read pipeline: the header and
data slices are exactly the bytes read, of the declared lengths. -/
theorem builtRecord_buffer (rec0 : RecordBase) (bs1 hdrBytes dlBytes dataBytes : List Byte)
    (h1 : bs1.length = lenInBytes)
    (h2 : hdrBytes.length = (recWithLen rec0 bs1).HeaderLen)
    (h3 : dlBytes.length = lenInBytes)
    (h4 : dataBytes.length =
      (recWithDataLen (recWithHeader (recWithLen rec0 bs1) hdrBytes) dlBytes).DataLen) :
    (recWithData (recWithDataLen (recWithHeader (recWithLen rec0 bs1) hdrBytes) dlBytes)
        dataBytes).header? = some hdrBytes ∧
    (recWithData (recWithDataLen (recWithHeader (recWithLen rec0 bs1) hdrBytes) dlBytes)
        dataBytes).HeaderLen = hdrBytes.length ∧
    (recWithData (recWithDataLen (recWithHeader (recWithLen rec0 bs1) hdrBytes) dlBytes)
        dataBytes).data? = some dataBytes ∧
    (recWithData (recWithDataLen (recWithHeader (recWithLen rec0 bs1) hdrBytes) dlBytes)
        dataBytes).DataLen = dataBytes.length := by
  obtain ⟨t2, hr2, hH2, hD2⟩ := recWithLen_repr rec0 bs1 h1
  obtain ⟨t4, hr4, hH4, hD4⟩ :=
    recWithHeader_repr (recWithLen rec0 bs1) bs1 t2 hdrBytes hr2 h1 h2
  set record4 := recWithHeader (recWithLen rec0 bs1) hdrBytes with hrec4
  have hH4' : record4.HeaderLen = hdrBytes.length := by rw [hH4, ← h2]
  obtain ⟨t6, hr6, hH6, hD6⟩ :=
    recWithDataLen_repr record4 (bs1 ++ hdrBytes) t4 dlBytes
      (by rw [hr4]; try simp [List.append_assoc])
      (by simp only [List.length_append, h1, hH4']; try omega) h3
  set record6 := recWithDataLen record4 dlBytes with hrec6
  have hH6' : record6.HeaderLen = hdrBytes.length := by rw [hH6, hH4']
  have hD6' : dataBytes.length = record6.DataLen := h4
  obtain ⟨t8, hr8, hH8, hD8⟩ :=
    recWithData_repr record6 ((bs1 ++ hdrBytes) ++ dlBytes) t6 dataBytes
      (by rw [hr6]; try simp [List.append_assoc])
      (by simp only [List.length_append, h1, h3, hH6', lenInBytes]; try omega) hD6'
  set record8 := recWithData record6 dataBytes with hrec8
  have hH8' : record8.HeaderLen = hdrBytes.length := by rw [hH8, hH6']
  have hD8' : record8.DataLen = dataBytes.length := by rw [hD8, ← hD6']
  refine ⟨?_, hH8', ?_, hD8'⟩
  · refine header?_of_repr record8 bs1 hdrBytes ((dlBytes ++ dataBytes) ++ t8) ?_ h1
      (by rw [hH8'])
    rw [hr8]
    simp [List.append_assoc]
  · refine data?_of_repr record8 ((bs1 ++ hdrBytes) ++ dlBytes) dataBytes t8
      (by rw [hr8]) ?_ (by rw [hD8'])
    simp only [List.length_append, h1, h3, hH8', lenInBytes]
    omega

/-- Same for the chunk hand-off record (built without its data). -/
theorem builtRecord6_buffer (rec0 : RecordBase) (bs1 hdrBytes dlBytes : List Byte)
    (h1 : bs1.length = lenInBytes)
    (h2 : hdrBytes.length = (recWithLen rec0 bs1).HeaderLen)
    (h3 : dlBytes.length = lenInBytes) :
    (recWithDataLen (recWithHeader (recWithLen rec0 bs1) hdrBytes) dlBytes).header? =
      some hdrBytes ∧
    (recWithDataLen (recWithHeader (recWithLen rec0 bs1) hdrBytes) dlBytes).HeaderLen =
      hdrBytes.length := by
  obtain ⟨t2, hr2, hH2, hD2⟩ := recWithLen_repr rec0 bs1 h1
  obtain ⟨t4, hr4, hH4, hD4⟩ :=
    recWithHeader_repr (recWithLen rec0 bs1) bs1 t2 hdrBytes hr2 h1 h2
  set record4 := recWithHeader (recWithLen rec0 bs1) hdrBytes with hrec4
  have hH4' : record4.HeaderLen = hdrBytes.length := by rw [hH4, ← h2]
  obtain ⟨t6, hr6, hH6, hD6⟩ :=
    recWithDataLen_repr record4 (bs1 ++ hdrBytes) t4 dlBytes
      (by rw [hr4]; try simp [List.append_assoc])
      (by simp only [List.length_append, h1, hH4']; try omega) h3
  set record6 := recWithDataLen record4 dlBytes with hrec6
  have hH6' : record6.HeaderLen = hdrBytes.length := by rw [hH6, hH4']
  refine ⟨?_, hH6'⟩
  refine header?_of_repr record6 bs1 hdrBytes ((hdrBytes.drop hdrBytes.length) ++ (dlBytes ++ t6)) ?_ h1
    (by rw [hH6'])
  rw [hr6]
  simp [List.append_assoc]

/-- Every record a successful `decodeRecordCore` dispatch returns has a
header slice of length `HeaderLen` and a data slice of length `DataLen`
(its body was read into the buffer). -/
theorem decodeRecordCore_ok_buffer (stream : List Byte)
    (conns : List (Nat × ConnectionHeader)) (rec0 : RecordBase) (res : Res Record)
    (s' : List Byte) (c' : List (Nat × ConnectionHeader)) (rec : Record)
    (h : decodeRecordCore stream conns rec0 = .plain res s' c') (hres : res = .ok rec) :
    ∃ hdr data, (recordBaseOf rec).header? = some hdr ∧
      (recordBaseOf rec).HeaderLen = hdr.length ∧
      (recordBaseOf rec).data? = some data ∧
      (recordBaseOf rec).DataLen = data.length := by
  simp only [decodeRecordCore] at h
  repeat' split at h
  all_goals cases h
  all_goals try cases hres
  rename_i x1 bs1 e1 x2 hdrBytes e2 xop op eop x3 dlBytes e3 hnc x4 dataBytes e4
  have hbase := dispatchOp_base op conns _ rec hres
  rw [hbase]
  have f1 := readFull_ok stream lenInBytes bs1 (readFull stream lenInBytes).2
    (by rw [← e1])
  have f2 := readFull_ok (readFull stream lenInBytes).2 (recWithLen rec0 bs1).HeaderLen
    hdrBytes (readFull (readFull stream lenInBytes).2 (recWithLen rec0 bs1).HeaderLen).2
    (by rw [← e2])
  have f3 := readFull_ok (readFull (readFull stream lenInBytes).2
      (recWithLen rec0 bs1).HeaderLen).2 lenInBytes dlBytes
    (readFull (readFull (readFull stream lenInBytes).2
      (recWithLen rec0 bs1).HeaderLen).2 lenInBytes).2 (by rw [← e3])
  have f4 := readFull_ok _ (recWithDataLen (recWithHeader (recWithLen rec0 bs1) hdrBytes)
      dlBytes).DataLen dataBytes _ (by rw [← e4])
  obtain ⟨b1, b2, b3, b4⟩ :=
    builtRecord_buffer rec0 bs1 hdrBytes dlBytes dataBytes f1.2.2.1 f2.2.2.1 f3.2.2.1 f4.2.2.1
  exact ⟨hdrBytes, dataBytes, b1, b2.symm ▸ rfl, b3, b4.symm ▸ rfl⟩

/-- The chunk record handed to `handleChunk` has a header slice of
length `HeaderLen`. -/
theorem decodeRecordCore_chunky_buffer (stream : List Byte)
    (conns : List (Nat × ConnectionHeader)) (rec0 : RecordBase) (rb : RecordBase)
    (s' : List Byte)
    (h : decodeRecordCore stream conns rec0 = .chunky rb s') :
    ∃ hdr, rb.header? = some hdr ∧ rb.HeaderLen = hdr.length := by
  simp only [decodeRecordCore] at h
  repeat' split at h
  all_goals cases h
  rename_i x1 bs1 e1 x2 hdrBytes e2 xop op eop x3 dlBytes e3 hchunk
  have f1 := readFull_ok stream lenInBytes bs1 (readFull stream lenInBytes).2
    (by rw [← e1])
  have f2 := readFull_ok (readFull stream lenInBytes).2 (recWithLen rec0 bs1).HeaderLen
    hdrBytes (readFull (readFull stream lenInBytes).2 (recWithLen rec0 bs1).HeaderLen).2
    (by rw [← e2])
  have f3 := readFull_ok (readFull (readFull stream lenInBytes).2
      (recWithLen rec0 bs1).HeaderLen).2 lenInBytes dlBytes
    (readFull (readFull (readFull stream lenInBytes).2
      (recWithLen rec0 bs1).HeaderLen).2 lenInBytes).2 (by rw [← e3])
  obtain ⟨b1, b2⟩ := builtRecord6_buffer rec0 bs1 hdrBytes dlBytes f1.2.2.1 f2.2.2.1 f3.2.2.1
  exact ⟨hdrBytes, b1, b2⟩

/-! ## Decoder-level state lemmas -/

@[simp] theorem setStream_conns (d : Decoder) (src : Source) (s : List Byte) :
    (d.setStream src s).conns = d.conns := by
  cases src <;> rfl

@[simp] theorem setStream_checkedVersion (d : Decoder) (src : Source) (s : List Byte) :
    (d.setStream src s).checkedVersion = d.checkedVersion := by
  cases src <;> rfl

theorem handleChunk_conns (cfg : Cfg) (d : Decoder) (rb : RecordBase) :
    (handleChunk cfg d rb).2.conns = d.conns := by
  unfold handleChunk
  repeat' split
  all_goals rfl

theorem handleChunk_checkedVersion (cfg : Cfg) (d : Decoder) (rb : RecordBase) :
    (handleChunk cfg d rb).2.checkedVersion = d.checkedVersion := by
  unfold handleChunk
  repeat' split
  all_goals rfl

theorem handleChunk_res (cfg : Cfg) (d : Decoder) (rb : RecordBase) (rec : Record)
    (h : (handleChunk cfg d rb).1 = .ok rec) : rec = .chunk rb := by
  unfold handleChunk at h
  repeat' split at h
  all_goals first
    | (cases h; rfl)
    | (cases h)
    | simp_all

/-- The op dispatch registry relation, phrased through `registryOf`. -/
theorem dispatchOp_registry (op : Nat) (conns : List (Nat × ConnectionHeader))
    (rb : RecordBase) :
    (dispatchOp op conns rb).2 = registryOf conns [(dispatchOp op conns rb).1] := by
  unfold dispatchOp handleConnection handleMessageData
  repeat' split
  all_goals rfl

theorem decodeRecordCore_registry (stream : List Byte) (conns : List (Nat × ConnectionHeader))
    (rec0 : RecordBase) (res : Res Record) (s' : List Byte)
    (c' : List (Nat × ConnectionHeader))
    (h : decodeRecordCore stream conns rec0 = .plain res s' c') :
    c' = registryOf conns [res] := by
  simp only [decodeRecordCore] at h
  repeat' split at h
  all_goals cases h
  all_goals try rfl
  exact dispatchOp_registry _ conns _

theorem decodeRecord_registry (cfg : Cfg) (d : Decoder) (src : Source) (rec0 : RecordBase) :
    (decodeRecord cfg d src rec0).2.conns =
      registryOf d.conns [(decodeRecord cfg d src rec0).1] := by
  unfold decodeRecord
  cases hcore : decodeRecordCore (d.getStream src) d.conns rec0 with
  | plain res s' c' =>
    dsimp only
    rw [decodeRecordCore_registry _ _ _ _ _ _ hcore]
  | chunky rb s' =>
    dsimp only
    rw [handleChunk_conns]
    rw [setStream_conns]
    cases hr : (handleChunk cfg (d.setStream src s') rb).1 with
    | ok rec =>
      rw [handleChunk_res _ _ _ _ hr]
      rfl
    | err e => rfl
    | panics => rfl

theorem decodeRecord_checkedVersion (cfg : Cfg) (d : Decoder) (src : Source)
    (rec0 : RecordBase) :
    (decodeRecord cfg d src rec0).2.checkedVersion = d.checkedVersion := by
  unfold decodeRecord
  cases hcore : decodeRecordCore (d.getStream src) d.conns rec0 with
  | plain res s' c' => dsimp only; rw [setStream_checkedVersion]
  | chunky rb s' =>
    dsimp only
    rw [handleChunk_checkedVersion, setStream_checkedVersion]

theorem readBody_registry (cfg : Cfg) (d : Decoder) :
    (d.readBody cfg).2.conns = registryOf d.conns [(d.readBody cfg).1] := by
  unfold Decoder.readBody
  cases hc : d.chunkReader with
  | none =>
    dsimp only
    exact decodeRecord_registry cfg d .primary freshRecord
  | some bytes =>
    dsimp only
    cases hr : (decodeRecord cfg d .chunk freshRecord).1 with
    | ok rec =>
      dsimp only
      have := decodeRecord_registry cfg d .chunk freshRecord
      rw [hr] at this
      exact this
    | panics =>
      dsimp only
      have := decodeRecord_registry cfg d .chunk freshRecord
      rw [hr] at this
      exact this
    | err e =>
      have h1 := decodeRecord_registry cfg d .chunk freshRecord
      rw [hr] at h1
      cases e <;> dsimp only <;>
        first
        | (rw [decodeRecord_registry]; simp only [h1]; rfl)
        | exact h1

/-- One `Read` call updates the registry exactly by the record it
returns. -/
theorem read_registry (cfg : Cfg) (d : Decoder) :
    (d.read cfg).2.conns = registryOf d.conns [(d.read cfg).1] := by
  unfold Decoder.read
  cases hv : d.checkedVersion
  · rw [if_neg (by simp)]
    cases hcv : checkVersion d.reader with
    | mk o rest =>
      cases o with
      | some e => rfl
      | none =>
        dsimp only
        exact readBody_registry cfg _
  · rw [if_pos rfl]
    exact readBody_registry cfg d

theorem registryOf_cons (init : List (Nat × ConnectionHeader)) (a : Res Record)
    (l : List (Res Record)) :
    registryOf init (a :: l) = registryOf (registryOf init [a]) l := by
  cases a with
  | ok rec => cases rec <;> rfl
  | err e => rfl
  | panics => rfl

/-- The registry after `n` reads is exactly the one induced by the
returned trace: every successfully returned Connection record
registered (overrode) its `conn` id, and nothing else touched it. -/
theorem readTrace_registry (cfg : Cfg) (n : Nat) (d : Decoder) :
    (readTrace cfg n d).2.conns = registryOf d.conns (readTrace cfg n d).1 := by
  induction n generalizing d with
  | zero => rfl
  | succ n ih =>
    show (readTrace cfg n (d.read cfg).2).2.conns =
      registryOf d.conns ((d.read cfg).1 :: (readTrace cfg n (d.read cfg).2).1)
    rw [registryOf_cons, ← read_registry cfg d]
    exact ih (d.read cfg).2

/-- First-hit lookup through `registryOf`: the most recently returned
Connection record for an id wins; ids never returned fall through to
the initial registry. -/
theorem connsLookup_registryOf (trace : List (Res Record))
    (init : List (Nat × ConnectionHeader)) (c : Nat) :
    connsLookup (registryOf init trace) c =
      (lastConn trace c).elim (connsLookup init c) some := by
  induction trace generalizing init with
  | nil => rfl
  | cons a l ih =>
    rw [registryOf_cons, ih]
    show (lastConn l c).elim (connsLookup (registryOf init [a]) c) some =
      (lastConn (a :: l) c).elim (connsLookup init c) some
    rw [show lastConn (a :: l) c =
        (match lastConn l c with
         | some h => some h
         | none =>
           match a with
           | .ok (.connection _ c' h) => if c' = c then some h else none
           | _ => none) from rfl]
    cases hl : lastConn l c with
    | some h => rfl
    | none =>
      dsimp only [Option.elim]
      cases a with
      | err e => rfl
      | panics => rfl
      | ok rec =>
        cases rec with
        | connection rb cn hd =>
          by_cases hceq : cn = c
          · simp [registryOf, connsLookup, hceq]
          · simp [registryOf, connsLookup, hceq]
        | bagHeader rb => rfl
        | chunk rb => rfl
        | messageData rb cn hd => rfl
        | indexData rb => rfl
        | chunkInfo rb => rfl

/-- A `Read` that meets a well-formed non-chunk frame on the primary
stream returns the op dispatch of the freshly built record and advances
the reader past the frame. -/
theorem read_frame (cfg : Cfg) (d : Decoder) (hdr data rest : List Byte) (op : Nat)
    (hver : d.checkedVersion = true) (hchunk : d.chunkReader = none)
    (hreader : d.reader = encodeFrame hdr data ++ rest)
    (hhl : hdr.length < 2 ^ 32) (hdl : data.length < 2 ^ 32)
    (hop : opOfHeader hdr = .ok op) (hnc : op ≠ OpChunk) :
    ∃ rb : RecordBase,
      rb = builtRec freshRecord hdr data ∧
      rb.header? = some hdr ∧ rb.data? = some data ∧
      rb.HeaderLen = hdr.length ∧ rb.DataLen = data.length ∧
      d.read cfg = ((dispatchOp op d.conns rb).1,
        { d with reader := rest, conns := (dispatchOp op d.conns rb).2 }) := by
  obtain ⟨rb, h0, h1, h2, h3, h4, hcore⟩ :=
    decodeRecordCore_frame d.reader d.conns freshRecord hdr data rest op hreader hhl hdl hop hnc
  refine ⟨rb, h0, h3, h4, h1, h2, ?_⟩
  unfold Decoder.read
  rw [if_pos hver]
  unfold Decoder.readBody
  rw [hchunk]
  dsimp only
  unfold decodeRecord
  rw [show d.getStream Source.primary = d.reader from rfl, hcore]
  simp [Decoder.setStream, hchunk]

/-- Records successfully returned by `decodeRecord` satisfy the buffer
invariants (data only guaranteed for non-chunk records). -/
theorem decodeRecord_ok_buffer (cfg : Cfg) (d : Decoder) (src : Source) (rec0 : RecordBase)
    (rec : Record) (h : (decodeRecord cfg d src rec0).1 = .ok rec) :
    (∃ hdr, (recordBaseOf rec).header? = some hdr ∧
      (recordBaseOf rec).HeaderLen = hdr.length) ∧
    (isChunkRec rec = false →
      ∃ data, (recordBaseOf rec).data? = some data ∧
        (recordBaseOf rec).DataLen = data.length) := by
  unfold decodeRecord at h
  cases hcore : decodeRecordCore (d.getStream src) d.conns rec0 with
  | plain res s' c' =>
    rw [hcore] at h
    dsimp only at h
    obtain ⟨hdr, data, b1, b2, b3, b4⟩ :=
      decodeRecordCore_ok_buffer _ _ _ _ _ _ rec hcore h
    exact ⟨⟨hdr, b1, b2⟩, fun _ => ⟨data, b3, b4⟩⟩
  | chunky rb s' =>
    rw [hcore] at h
    dsimp only at h
    have hrec := handleChunk_res _ _ _ _ h
    subst hrec
    obtain ⟨hdr, b1, b2⟩ := decodeRecordCore_chunky_buffer _ _ _ _ _ hcore
    refine ⟨⟨hdr, b1, b2⟩, fun hfalse => ?_⟩
    simp [isChunkRec] at hfalse

theorem readBody_ok_buffer (cfg : Cfg) (d : Decoder) (rec : Record)
    (h : (d.readBody cfg).1 = .ok rec) :
    (∃ hdr, (recordBaseOf rec).header? = some hdr ∧
      (recordBaseOf rec).HeaderLen = hdr.length) ∧
    (isChunkRec rec = false →
      ∃ data, (recordBaseOf rec).data? = some data ∧
        (recordBaseOf rec).DataLen = data.length) := by
  unfold Decoder.readBody at h
  cases hc : d.chunkReader with
  | none =>
    rw [hc] at h
    dsimp only at h
    exact decodeRecord_ok_buffer cfg d .primary freshRecord rec h
  | some bytes =>
    rw [hc] at h
    dsimp only at h
    cases hr : (decodeRecord cfg d .chunk freshRecord).1 with
    | ok r =>
      rw [hr] at h
      dsimp only at h
      cases h
      exact decodeRecord_ok_buffer cfg d .chunk freshRecord rec hr
    | panics =>
      rw [hr] at h
      dsimp only at h
      cases h
    | err e =>
      rw [hr] at h
      cases e <;> dsimp only at h <;> try cases h
      exact decodeRecord_ok_buffer cfg _ .primary freshRecord rec h

theorem read_ok_buffer (cfg : Cfg) (d : Decoder) (rec : Record)
    (h : (d.read cfg).1 = .ok rec) :
    (∃ hdr, (recordBaseOf rec).header? = some hdr ∧
      (recordBaseOf rec).HeaderLen = hdr.length) ∧
    (isChunkRec rec = false →
      ∃ data, (recordBaseOf rec).data? = some data ∧
        (recordBaseOf rec).DataLen = data.length) := by
  unfold Decoder.read at h
  cases hv : d.checkedVersion
  · rw [hv] at h
    rw [if_neg (by simp)] at h
    cases hcv : checkVersion d.reader with
    | mk o rest =>
      rw [hcv] at h
      cases o with
      | some e => dsimp only at h; cases h
      | none =>
        dsimp only at h
        exact readBody_ok_buffer cfg _ rec h
  · rw [hv] at h
    rw [if_pos rfl] at h
    exact readBody_ok_buffer cfg d rec h


/-! ## Evaluation lemmas for concrete headers -/

/-- `findField`'s scan on a header that starts with the wanted field. -/
theorem findFieldCore_head (k v junk : List Byte) (hk : headerFieldDelimiter ∉ k)
    (hkv : k.length + 1 + v.length < 2 ^ 32) :
    findFieldCore (encodeField k v ++ junk) k = .ok v := by
  have := findFieldCore_first [] k v junk hk hkv (by intro kv hkv2; cases hkv2)
  simpa [encodeHeader] using this

theorem findFieldCore_single (k v : List Byte) (hk : headerFieldDelimiter ∉ k)
    (hkv : k.length + 1 + v.length < 2 ^ 32) :
    findFieldCore (encodeField k v) k = .ok v := by
  have := findFieldCore_head k v [] hk hkv
  simpa using this

/-- A header of well-formed fields none of which is keyed `k`. -/
theorem findFieldCore_notFound (fields : List (List Byte × List Byte)) (k : List Byte)
    (hw : wfFields fields k) :
    findFieldCore (encodeHeader fields) k = .err (.fieldNotFound k) := by
  unfold findFieldCore
  have core : ∀ fs, wfFields fs k →
      iterateHeaderFields (σ := Option (List Byte))
        (fun acc currentKey currentValue =>
          if currentKey = k then (some currentValue, false) else (acc, true))
        (encodeHeader fs) none = (none, none) := by
    intro fs hf
    induction fs with
    | nil =>
      simp only [encodeHeader, List.map_nil, List.flatten_nil]
      exact iterateHeaderFields_nil _ _
    | cons kv fs ih =>
      have h1 := hf kv (by simp)
      have h2 : wfFields fs k := fun x hx => hf x (List.mem_cons_of_mem _ hx)
      simp only [encodeHeader, List.map_cons, List.flatten_cons]
      rw [iterateHeaderFields_field _ kv.1 kv.2 _ none h1.1 h1.2.2]
      rw [if_pos (by simp [h1.2.1])]
      rw [if_neg h1.2.1]
      have := ih h2
      simp only [encodeHeader] at this
      exact this
  rw [core fields hw]

theorem opOfHeader_single (b : Byte) :
    opOfHeader (encodeField (ascii "op") [b]) = .ok b := by
  unfold opOfHeader
  rw [findFieldCore_single (ascii "op") [b] (by decide)
    (by show 2 + 1 + 1 < 2 ^ 32; decide)]

theorem opOfHeader_emptyVal :
    opOfHeader (encodeField (ascii "op") []) = .panics := by
  unfold opOfHeader
  rw [findFieldCore_single (ascii "op") [] (by decide) (by decide)]

theorem opOfHeader_notFound (fields : List (List Byte × List Byte))
    (hw : wfFields fields (ascii "op")) :
    opOfHeader (encodeHeader fields) = .err (.fieldNotFound (ascii "op")) := by
  unfold opOfHeader
  rw [findFieldCore_notFound fields (ascii "op") hw]

theorem opOfHeader_chunkHdrNone : opOfHeader chunkHdrNone = .ok OpChunk := by
  unfold opOfHeader
  rw [show chunkHdrNone =
      encodeField (ascii "op") [OpChunk] ++ encodeField (ascii "compression") (ascii "none")
    from rfl]
  rw [findFieldCore_head (ascii "op") [OpChunk] _ (by decide) (by decide)]

theorem compressionOfHeader_chunkHdrNone :
    compressionOfHeader chunkHdrNone = .ok (ascii "none") := by
  unfold compressionOfHeader
  have hf := findFieldCore_first [(ascii "op", [OpChunk])] (ascii "compression") (ascii "none") []
    (by decide) (by decide)
    (by intro kv h; simp at h; subst h; exact ⟨by decide, by decide, by decide⟩)
  rw [show chunkHdrNone = encodeHeader [(ascii "op", [OpChunk])] ++
      (encodeField (ascii "compression") (ascii "none") ++ []) from rfl]
  rw [hf]

theorem opOfHeader_msgHdr7 : opOfHeader msgHdr7 = .ok OpMessageData := by
  unfold opOfHeader
  rw [show msgHdr7 = encodeField (ascii "op") [OpMessageData] ++
      encodeField (ascii "conn") [7, 0, 0, 0] from rfl]
  rw [findFieldCore_head (ascii "op") [OpMessageData] _ (by decide) (by decide)]

theorem connOfHeader_msgHdr7 : connOfHeader msgHdr7 = .ok 7 := by
  unfold connOfHeader findFieldUint32Core
  have hf := findFieldCore_first [(ascii "op", [OpMessageData])] (ascii "conn") [7, 0, 0, 0] []
    (by decide) (by decide)
    (by intro kv h; simp at h; subst h; exact ⟨by decide, by decide, by decide⟩)
  rw [show msgHdr7 = encodeHeader [(ascii "op", [OpMessageData])] ++
      (encodeField (ascii "conn") [7, 0, 0, 0] ++ []) from rfl]
  rw [hf]
  rfl

/-! ## The version scan on concrete preambles -/

theorem checkVersion_v20 (rest : List Byte) :
    checkVersion (versionPreamble ++ rest) = (none, rest) := rfl

theorem checkVersion_v200 (rest : List Byte) :
    checkVersion (ascii "#ROSBAG V2.00\n" ++ rest) = (none, rest) := rfl

theorem checkVersion_v12 (rest : List Byte) :
    checkVersion (ascii "#ROSBAG V1.2\n" ++ rest) = (some .unsupportedVersion, rest) := rfl

theorem checkVersion_junk (rest : List Byte) :
    checkVersion (ascii "not a rosbag\n" ++ rest) =
      (some .versionScan, ascii "not a rosbag\n" ++ rest) := rfl

/-- `stripLit` removes exactly the literal it is given. -/
theorem stripLit_exactLit (lit s : List Byte) : stripLit lit (lit ++ s) = some s := by
  induction lit with
  | nil => rfl
  | cons c cs ih => simp [stripLit, ih]

/-- `takeWhile` over a block satisfying `p` followed by a stopper. -/
theorem takeWhile_append_stop (p : Byte → Bool) (xs : List Byte) (b : Byte) (t : List Byte)
    (hxs : ∀ x ∈ xs, p x = true) (hb : p b = false) :
    (xs ++ b :: t).takeWhile p = xs := by
  induction xs with
  | nil => simp [List.takeWhile_cons, hb]
  | cons x xs ih =>
    have hx : p x = true := hxs x (by simp)
    simp only [List.cons_append, List.takeWhile_cons, hx, if_true]
    rw [ih (fun y hy => hxs y (by simp [hy]))]

/-- The greedy `%d` scan on a digit spelling followed by a non-digit
takes exactly the spelling and yields its value. -/
theorem scanDigits_exact (ds : List Byte) (a : Nat) (b : Byte) (t : List Byte)
    (hds : digitsVal? ds = some a) (hb : isDigitB b = false) :
    scanDigits (ds ++ b :: t) = some (a, b :: t) := by
  have hall : ∀ x ∈ ds, isDigitB x = true := by
    unfold digitsVal? at hds
    split at hds
    · rename_i h
      exact fun x hx => List.all_eq_true.mp h.2 x hx
    · cases hds
  have htw := takeWhile_append_stop isDigitB ds b t hall hb
  simp only [scanDigits]
  rw [htw, hds]
  dsimp only
  rw [List.drop_left]

/-- The version scan on an arbitrary line matching the
`#ROSBAG V%d.%d\n` pattern: acceptance depends only on the two parsed
values, never on their spelling. -/
theorem checkVersion_scan (maj mnr : List Byte) (a b : Nat) (rest : List Byte)
    (hmaj : digitsVal? maj = some a) (hmin : digitsVal? mnr = some b) :
    checkVersion (ascii "#ROSBAG V" ++ (maj ++ (46 :: (mnr ++ (10 :: rest))))) =
      if a = 2 ∧ b = 0 then (none, rest) else (some .unsupportedVersion, rest) := by
  unfold checkVersion
  rw [stripLit_exactLit]
  dsimp only
  rw [scanDigits_exact maj a 46 (mnr ++ (10 :: rest)) hmaj (by decide)]
  dsimp only
  rw [scanDigits_exact mnr b 10 rest hmin (by decide)]

/-! ## Single `Read` steps -/

/-- The first `Read` performs the version scan; on success it proceeds
with the flag set and the preamble consumed. -/
theorem read_version_step (cfg : Cfg) (d : Decoder) (rest : List Byte)
    (h : d.checkedVersion = false) (hv : checkVersion d.reader = (none, rest)) :
    d.read cfg = Decoder.read cfg { d with reader := rest, checkedVersion := true } := by
  unfold Decoder.read
  rw [if_neg (by rw [h]; simp), hv, if_pos rfl]

/-- A failing version scan is returned as the error. -/
theorem read_version_err (cfg : Cfg) (d : Decoder) (e : GoErr) (rest : List Byte)
    (h : d.checkedVersion = false) (hv : checkVersion d.reader = (some e, rest)) :
    d.read cfg = (.err e, { d with reader := rest }) := by
  unfold Decoder.read
  rw [if_neg (by rw [h]; simp), hv]

theorem read_checked (cfg : Cfg) (d : Decoder) (h : d.checkedVersion = true) :
    d.read cfg = d.readBody cfg := by
  unfold Decoder.read
  rw [if_pos h]

/-- An exhausted primary stream (and no chunk sub-reader) reads as
`io.EOF` without state change. -/
theorem read_nil (cfg : Cfg) (d : Decoder) (hver : d.checkedVersion = true)
    (hchunk : d.chunkReader = none) (hr : d.reader = []) :
    d.read cfg = (.err .eof, d) := by
  unfold Decoder.read
  rw [if_pos hver]
  unfold Decoder.readBody
  rw [hchunk]
  dsimp only
  unfold decodeRecord
  rw [show d.getStream Source.primary = d.reader from rfl, hr]
  have hc : decodeRecordCore [] d.conns freshRecord = .plain (.err .eof) [] d.conns := by
    simp only [decodeRecordCore]
    rw [readFull_nil lenInBytes (by decide)]
  rw [hc]
  dsimp only
  cases d with
  | mk r cr cv cs => simp_all [Decoder.setStream]

/-- A frame whose header makes the `op` lookup panic: the panic escapes
`Read` with the reader past the header. -/
theorem decodeRecordCore_opFail (stream : List Byte) (conns : List (Nat × ConnectionHeader))
    (rec0 : RecordBase) (hdr rest : List Byte)
    (hs : stream = le32 hdr.length ++ (hdr ++ rest)) (hhl : hdr.length < 2 ^ 32) :
    (opOfHeader hdr = .panics → decodeRecordCore stream conns rec0 = .plain .panics rest conns) ∧
    (∀ e, opOfHeader hdr = .err e →
      decodeRecordCore stream conns rec0 = .plain (.err e) rest conns) := by
  obtain ⟨t2, hr2, hH2, hD2⟩ := recWithLen_repr rec0 (le32 hdr.length) (le32_length _)
  have hH2' : (recWithLen rec0 (le32 hdr.length)).HeaderLen = hdr.length := by
    rw [hH2, leUint32_le32 _ hhl]
  obtain ⟨t4, hr4, hH4, hD4⟩ :=
    recWithHeader_repr (recWithLen rec0 (le32 hdr.length)) (le32 hdr.length) t2 hdr hr2
      (le32_length _) (by rw [hH2'])
  set record4 := recWithHeader (recWithLen rec0 (le32 hdr.length)) hdr with hrec4
  have hH4' : record4.HeaderLen = hdr.length := by rw [hH4, hH2']
  have hhdr4 : record4.header? = some hdr :=
    header?_of_repr record4 (le32 hdr.length) hdr t4 hr4 (le32_length _) (by rw [hH4'])
  constructor
  · intro hp
    have hop4 : record4.op = .panics := by
      rw [op_of_header record4 hdr hhdr4]; exact hp
    simp only [decodeRecordCore]
    rw [hs]
    simp only [lenInBytes]
    rw [readFull_exact _ _ _ (le32_length hdr.length)]
    dsimp only
    rw [hH2', readFull_exact hdr _ _ rfl]
    dsimp only
    rw [← hrec4, hop4]
  · intro e he
    have hop4 : record4.op = .err e := by
      rw [op_of_header record4 hdr hhdr4]; exact he
    simp only [decodeRecordCore]
    rw [hs]
    simp only [lenInBytes]
    rw [readFull_exact _ _ _ (le32_length hdr.length)]
    dsimp only
    rw [hH2', readFull_exact hdr _ _ rfl]
    dsimp only
    rw [← hrec4, hop4]

theorem read_frame_opPanics (cfg : Cfg) (d : Decoder) (hdr rest : List Byte)
    (hver : d.checkedVersion = true) (hchunk : d.chunkReader = none)
    (hreader : d.reader = le32 hdr.length ++ (hdr ++ rest)) (hhl : hdr.length < 2 ^ 32)
    (hop : opOfHeader hdr = .panics) :
    d.read cfg = (.panics, { d with reader := rest }) := by
  have hcore := (decodeRecordCore_opFail d.reader d.conns freshRecord hdr rest hreader hhl).1 hop
  unfold Decoder.read
  rw [if_pos hver]
  unfold Decoder.readBody
  rw [hchunk]
  dsimp only
  unfold decodeRecord
  rw [show d.getStream Source.primary = d.reader from rfl, hcore]
  simp [Decoder.setStream, hchunk]

theorem read_frame_opErr (cfg : Cfg) (d : Decoder) (hdr rest : List Byte) (e : GoErr)
    (hver : d.checkedVersion = true) (hchunk : d.chunkReader = none)
    (hreader : d.reader = le32 hdr.length ++ (hdr ++ rest)) (hhl : hdr.length < 2 ^ 32)
    (hop : opOfHeader hdr = .err e) :
    d.read cfg = (.err e, { d with reader := rest }) := by
  have hcore := (decodeRecordCore_opFail d.reader d.conns freshRecord hdr rest hreader hhl).2 e hop
  unfold Decoder.read
  rw [if_pos hver]
  unfold Decoder.readBody
  rw [hchunk]
  dsimp only
  unfold decodeRecord
  rw [show d.getStream Source.primary = d.reader from rfl, hcore]
  simp [Decoder.setStream, hchunk]


/-! ## Buffer length bookkeeping -/

theorem writeAt_length (raw : List Byte) (off : Nat) (bs : List Byte)
    (h : off + bs.length ≤ raw.length) :
    (writeAt raw off bs).length = raw.length := by
  simp only [writeAt, List.length_append, List.length_take, List.length_drop]
  omega

theorem grow_length_le (r : RecordBase) (n : Nat) :
    (r.grow n).Raw.length ≤ max r.Raw.length (2 * n) := by
  unfold RecordBase.grow
  split
  · simp only [List.length_append, List.length_replicate]
    omega
  · exact le_max_left _ _

theorem grow_length_ge (r : RecordBase) (n : Nat) :
    r.Raw.length ≤ (r.grow n).Raw.length ∧ n ≤ (r.grow n).Raw.length := by
  unfold RecordBase.grow
  split
  · simp only [List.length_append, List.length_replicate]
    omega
  · exact ⟨le_rfl, by omega⟩

/-- The buffer the three head-building steps produce never outgrows
`max` of the initial buffer and twice the frame-head size. -/
theorem recChain_len (rec0 : RecordBase) (bs1 hdr dl : List Byte)
    (hb : bs1.length = lenInBytes) (hdl : dl.length = lenInBytes)
    (hhdr : hdr.length = (recWithLen rec0 bs1).HeaderLen) :
    (recWithDataLen (recWithHeader (recWithLen rec0 bs1) hdr) dl).Raw.length ≤
      max rec0.Raw.length (2 * (lenInBytes + hdr.length + lenInBytes)) := by
  have hlib : lenInBytes = 4 := rfl
  have g1le := grow_length_le rec0 lenInBytes
  have g1ge := grow_length_ge rec0 lenInBytes
  have w1 : (recWithLen rec0 bs1).Raw.length = (rec0.grow lenInBytes).Raw.length := by
    dsimp only [recWithLen]
    refine writeAt_length _ 0 bs1 ?_
    rw [hb]
    omega
  have hH1 : (recWithLen rec0 bs1).HeaderLen = hdr.length := hhdr.symm
  set rb1 := recWithLen rec0 bs1 with hrb1
  have g2le := grow_length_le rb1 (lenInBytes + hdr.length)
  have g2ge := grow_length_ge rb1 (lenInBytes + hdr.length)
  have w2 : (recWithHeader rb1 hdr).Raw.length =
      (rb1.grow (lenInBytes + hdr.length)).Raw.length := by
    dsimp only [recWithHeader]
    rw [hH1]
    refine writeAt_length _ lenInBytes hdr ?_
    have := g2ge.2
    omega
  have hH2 : (recWithHeader rb1 hdr).HeaderLen = hdr.length := by
    simp only [recWithHeader, grow_HeaderLen]
    exact hH1
  set rb2 := recWithHeader rb1 hdr with hrb2
  have g3le := grow_length_le rb2 (lenInBytes + hdr.length + lenInBytes)
  have g3ge := grow_length_ge rb2 (lenInBytes + hdr.length + lenInBytes)
  have w3 : (recWithDataLen rb2 dl).Raw.length =
      (rb2.grow (lenInBytes + hdr.length + lenInBytes)).Raw.length := by
    dsimp only [recWithDataLen]
    rw [hH2]
    refine writeAt_length _ (lenInBytes + hdr.length) dl ?_
    have := g3ge.2
    omega
  rw [w3]
  omega

/-! ## Chunk installation and drain -/

theorem chunkDecompress_none (cfg : Cfg) (body : List Byte) :
    chunkDecompress cfg (ascii "none") body = body := by
  unfold chunkDecompress
  rw [if_pos rfl]

theorem chunkDecompress_bz2 (cfg : Cfg) (body : List Byte) :
    chunkDecompress cfg (ascii "bz2") body = cfg.bz2 body := by
  unfold chunkDecompress
  rw [if_neg (by decide), if_pos rfl]

theorem chunkDecompress_lz4 (cfg : Cfg) (body : List Byte) :
    chunkDecompress cfg (ascii "lz4") body = cfg.lz4 body := by
  unfold chunkDecompress
  rw [if_neg (by decide), if_neg (by decide), if_pos rfl]

/-- A `Read` that meets a well-formed chunk frame head on the primary
stream: the chunk record is returned with its declared `DataLen` but
without the body having been read into the buffer; the body bytes are
split off the primary reader and installed (through the decompressor
selected by the `compression` value) as the chunk sub-reader. -/
theorem read_chunk (cfg : Cfg) (d : Decoder) (hdr : List Byte) (bodyLen : Nat)
    (rest : List Byte) (comp : List Byte)
    (hver : d.checkedVersion = true) (hchunk : d.chunkReader = none)
    (hreader : d.reader = le32 hdr.length ++ (hdr ++ (le32 bodyLen ++ rest)))
    (hhl : hdr.length < 2 ^ 32) (hbl : bodyLen < 2 ^ 32)
    (hop : opOfHeader hdr = .ok OpChunk)
    (hcomp : compressionOfHeader hdr = .ok comp)
    (hknown : comp = ascii "none" ∨ comp = ascii "bz2" ∨ comp = ascii "lz4") :
    ∃ rb : RecordBase,
      rb = builtChunkRec freshRecord hdr bodyLen ∧
      rb.HeaderLen = hdr.length ∧ rb.DataLen = bodyLen ∧ rb.header? = some hdr ∧
      d.read cfg = (.ok (.chunk rb),
        { d with reader := rest.drop bodyLen,
                 chunkReader := some (chunkDecompress cfg comp (rest.take bodyLen)) }) := by
  obtain ⟨rb, hbuilt, hH, hD, hh, hcore⟩ :=
    decodeRecordCore_chunk d.reader d.conns freshRecord hdr bodyLen rest hreader hhl hbl hop
  refine ⟨rb, hbuilt, hH, hD, hh, ?_⟩
  unfold Decoder.read
  rw [if_pos hver]
  unfold Decoder.readBody
  rw [hchunk]
  dsimp only
  unfold decodeRecord
  rw [show d.getStream Source.primary = d.reader from rfl, hcore]
  dsimp only
  unfold handleChunk
  rw [compression_of_header rb hdr hh, hcomp]
  dsimp only
  rw [hD]
  rcases hknown with hc | hc | hc <;> subst hc
  · rw [if_pos rfl, chunkDecompress_none]
    simp [Decoder.setStream]
  · rw [if_neg (by decide), if_pos rfl, chunkDecompress_bz2]
    simp [Decoder.setStream]
  · rw [if_neg (by decide), if_neg (by decide), if_pos rfl, chunkDecompress_lz4]
    simp [Decoder.setStream]

/-- One successful record decode from the installed chunk sub-reader. -/
theorem readBody_chunkStep (cfg : Cfg) (d : Decoder) (bytes : List Byte) (r : Record)
    (s' : List Byte) (c' : List (Nat × ConnectionHeader))
    (hver : d.checkedVersion = true) (hc : d.chunkReader = some bytes)
    (hcore : decodeRecordCore bytes d.conns freshRecord = .plain (.ok r) s' c') :
    d.read cfg = (.ok r, { d with chunkReader := some s', conns := c' }) := by
  unfold Decoder.read
  rw [if_pos hver]
  unfold Decoder.readBody
  rw [hc]
  dsimp only
  unfold decodeRecord
  rw [show d.getStream Source.chunk = d.chunkReader.getD [] from rfl, hc]
  dsimp only [Option.getD]
  rw [hcore]
  simp [Decoder.setStream]

/-- A drained (empty) chunk sub-reader: its `io.EOF` makes `Read` fall
through to one primary-stream record decode with the sub-reader
discarded. -/
theorem read_chunkDrained (cfg : Cfg) (d : Decoder)
    (hver : d.checkedVersion = true) (hc : d.chunkReader = some []) :
    d.read cfg = decodeRecord cfg { d with chunkReader := none } .primary freshRecord := by
  unfold Decoder.read
  rw [if_pos hver]
  unfold Decoder.readBody
  rw [hc]
  dsimp only
  have hcore : decodeRecordCore ([] : List Byte) d.conns freshRecord =
      .plain (.err .eof) [] d.conns := by
    simp only [decodeRecordCore]
    rw [readFull_nil lenInBytes (by decide)]
  have hfirst : decodeRecord cfg d .chunk freshRecord =
      (.err .eof, { d with chunkReader := some [], conns := d.conns }) := by
    unfold decodeRecord
    rw [show d.getStream Source.chunk = d.chunkReader.getD [] from rfl, hc]
    dsimp only [Option.getD]
    rw [hcore]
    simp [Decoder.setStream]
  rw [hfirst]

/-- Draining a chunk body that frames `recs.length` records: the next
`recs.length` reads return exactly those records in order, leaving the
sub-reader empty and the registry advanced. -/
theorem readTrace_chunkDrain (cfg : Cfg) (fuel : Nat) (d : Decoder) (bytes : List Byte)
    (recs : List Record) (conns' : List (Nat × ConnectionHeader))
    (hver : d.checkedVersion = true) (hc : d.chunkReader = some bytes)
    (hall : decodeAll fuel d.conns bytes = some (recs, conns')) :
    readTrace cfg recs.length d =
      (recs.map Res.ok, { d with chunkReader := some [], conns := conns' }) := by
  induction fuel generalizing d bytes recs conns' with
  | zero => simp [decodeAll] at hall
  | succ fuel ih =>
    rw [decodeAll] at hall
    by_cases hby : bytes = []
    · rw [if_pos hby] at hall
      cases hall
      subst hby
      cases d with
      | mk r cr cv cs =>
        simp only at hc
        subst hc
        rfl
    · rw [if_neg hby] at hall
      cases hcore : decodeRecordCore bytes d.conns freshRecord with
      | chunky rb s' => rw [hcore] at hall; cases hall
      | plain res s' c' =>
        rw [hcore] at hall
        cases res with
        | err e => dsimp only at hall; cases hall
        | panics => dsimp only at hall; cases hall
        | ok r =>
          dsimp only at hall
          cases htail : decodeAll fuel c' s' with
          | none => rw [htail] at hall; cases hall
          | some p =>
            rw [htail] at hall
            dsimp only [Option.map] at hall
            cases hall
            have hstep := readBody_chunkStep cfg d bytes r s' c' hver hc hcore
            show readTrace cfg (r :: p.1).length d = _
            rw [show (r :: p.1).length = p.1.length + 1 from rfl]
            rw [readTrace]
            rw [hstep]
            have := ih { d with chunkReader := some s', conns := c' } s' p.1 p.2 hver rfl
              (by exact htail)
            rw [this]
            rfl


/-- The two records framed inside `c1body`, fully decoded by the
registry-threaded framing loop. -/
theorem c1_decodeAll :
    decodeAll 3 [] c1body = some ([.bagHeader bagRec, .indexData idxRec], []) := by
  obtain ⟨rb1, hb1, _, _, _, _, hcore1⟩ := decodeRecordCore_frame c1body [] freshRecord
    (encodeField (ascii "op") [OpBagHeader]) [] indexDataFrame OpBagHeader (by rfl)
    (by decide) (by decide) (opOfHeader_single OpBagHeader) (by decide)
  obtain ⟨rb2, hb2, _, _, _, _, hcore2⟩ := decodeRecordCore_frame indexDataFrame [] freshRecord
    (encodeField (ascii "op") [OpIndexData]) [] [] OpIndexData (by rfl)
    (by decide) (by decide) (opOfHeader_single OpIndexData) (by decide)
  have hcore1' : decodeRecordCore c1body [] freshRecord =
      .plain (.ok (.bagHeader bagRec)) indexDataFrame [] := by
    rw [hcore1, hb1]
    rfl
  have hcore2' : decodeRecordCore indexDataFrame [] freshRecord =
      .plain (.ok (.indexData idxRec)) [] [] := by
    rw [hcore2, hb2]
    rfl
  have step2 : decodeAll 1 [] [] = some ([], []) := by
    rw [show (1 : Nat) = 0 + 1 from rfl, decodeAll]
    rw [if_pos rfl]
  have step1 : decodeAll 2 [] indexDataFrame = some ([.indexData idxRec], []) := by
    rw [show (2 : Nat) = 1 + 1 from rfl, decodeAll]
    rw [if_neg (by decide), hcore2']
    dsimp only
    rw [step2]
    rfl
  rw [show (3 : Nat) = 2 + 1 from rfl, decodeAll]
  rw [if_neg (by decide), hcore1']
  dsimp only
  rw [step1]
  rfl


/-! ## Fast vs slow primitive-slice decoding -/

theorem chunksOf_nil (w : Nat) : chunksOf w [] = [] := by
  rw [chunksOf]

theorem chunksOf_cons (w : Nat) (hw1 : 1 ≤ w) (l : List Byte) (hl : l ≠ []) :
    chunksOf w l = l.take w :: chunksOf w (l.drop w) := by
  cases l with
  | nil => cases hl rfl
  | cons b rest =>
    rw [chunksOf]
    have hdrop : rest.drop (w - 1) = (b :: rest).drop w := by
      cases w with
      | zero => omega
      | succ w' => simp
    rw [hdrop]

/-- The wide `endian.UintW` reads only the first `w` bytes and succeeds
whenever `w` bytes remain. -/
theorem leUintW?_spec (w : Nat) (hw : w = 2 ∨ w = 4 ∨ w = 8) (l : List Byte)
    (h : w ≤ l.length) :
    leUintW? w (l.take w) = leUintW? w l ∧ (leUintW? w l).isSome = true := by
  rcases hw with h2 | h4 | h8
  · subst h2
    cases l with
    | nil => simp at h
    | cons x1 t =>
      cases t with
      | nil => simp at h
      | cons x2 t => exact ⟨rfl, rfl⟩
  · subst h4
    cases l with
    | nil => simp at h
    | cons x1 t =>
      cases t with
      | nil => simp at h
      | cons x2 t =>
        cases t with
        | nil => simp at h
        | cons x3 t =>
          cases t with
          | nil => simp at h
          | cons x4 t => exact ⟨rfl, rfl⟩
  · subst h8
    cases l with
    | nil => simp at h
    | cons x1 t =>
      cases t with
      | nil => simp at h
      | cons x2 t =>
        cases t with
        | nil => simp at h
        | cons x3 t =>
          cases t with
          | nil => simp at h
          | cons x4 t =>
            cases t with
            | nil => simp at h
            | cons x5 t =>
              cases t with
              | nil => simp at h
              | cons x6 t =>
                cases t with
                | nil => simp at h
                | cons x7 t =>
                  cases t with
                  | nil => simp at h
                  | cons x8 t => exact ⟨rfl, rfl⟩

/-- The slow element loop agrees with reading the aliased byte span in
`w`-byte groups, whenever the span is in bounds. -/
theorem readElems_eq_chunks (w : Nat) (hw : w = 2 ∨ w = 4 ∨ w = 8) (raw : List Byte) :
    ∀ (n off : Nat), off + n * w ≤ raw.length →
    readElems w raw off n =
      some ((chunksOf w ((raw.drop off).take (n * w))).map
        (fun c => (leUintW? w c).getD 0), off + n * w) := by
  intro n
  induction n with
  | zero =>
    intro off h
    simp [readElems, chunksOf_nil]
  | succ n ih =>
    intro off h
    have hw1 : 1 ≤ w := by rcases hw with h' | h' | h' <;> omega
    have hmul : (n + 1) * w = w + n * w := by ring
    have hlen : w ≤ (raw.drop off).length := by
      simp only [List.length_drop]
      omega
    obtain ⟨htake, hsome⟩ := leUintW?_spec w hw (raw.drop off) hlen
    obtain ⟨u, hu⟩ := Option.isSome_iff_exists.mp hsome
    rw [readElems]
    rw [hu]
    dsimp only
    rw [ih (off + w) (by omega)]
    dsimp only
    have hne : (raw.drop off).take ((n + 1) * w) ≠ [] := by
      have hlt : ((raw.drop off).take ((n + 1) * w)).length = (n + 1) * w := by
        simp only [List.length_take, List.length_drop]
        omega
      have hpos : 0 < (n + 1) * w := Nat.mul_pos (Nat.succ_pos n) hw1
      intro hnil
      rw [hnil] at hlt
      simp at hlt
      omega
    rw [chunksOf_cons w hw1 _ hne]
    have hhead : ((raw.drop off).take ((n + 1) * w)).take w = (raw.drop off).take w := by
      rw [List.take_take]
      congr 1
      omega
    have htail : ((raw.drop off).take ((n + 1) * w)).drop w =
        (raw.drop (off + w)).take (n * w) := by
      rw [hmul, List.drop_take, List.drop_drop]
      rw [show w + n * w - w = n * w from by omega]
    rw [hhead, htail]
    dsimp only [List.map]
    rw [htake, hu]
    congr 2
    omega

/-- The generic fast/slow agreement: the aliasing decoder (reinterpret
`w`-byte groups little-endian) and the copying/byte-swapping decoder
produce the same value and offset whenever the announced span is in
bounds. -/
theorem sliceFastSlow (w : Nat) (hw : w = 2 ∨ w = 4 ∨ w = 8) (mk : Nat → Rosbag.Value)
    (raw : List Byte) (length : Int) (lo : Nat × Nat)
    (hlen : fieldDecodeLength raw length = some lo)
    (hsuff : lo.2 + lo.1 * w ≤ raw.length) :
    (match fieldDecodeBasicSlice raw length w with
      | .notOk => FDec.notOk
      | .ok bytes off =>
        FDec.ok (.vArr ((chunksOf w bytes).map fun c => mk ((leUintW? w c).getD 0))) off) =
    (match fieldDecodeLength raw length with
      | none => FDec.notOk
      | some lo =>
        match readElems w raw lo.2 lo.1 with
        | none => FDec.panics
        | some r => FDec.ok (.vArr (r.1.map mk)) r.2) := by
  rw [hlen]
  dsimp only
  rw [readElems_eq_chunks w hw raw lo.1 lo.2 hsuff]
  dsimp only
  unfold fieldDecodeBasicSlice
  rw [hlen]
  dsimp only
  by_cases h0 : lo.1 = 0
  · rw [if_pos h0]
    dsimp only
    rw [h0]
    simp [chunksOf_nil]
  · rw [if_neg h0]
    rw [if_neg (by simp only [List.length_drop]; omega)]
    dsimp only
    rw [List.map_map]
    rfl

/-! # Claims -/

/-- C10: for every header byte sequence containing two or more
well-formed fields with the same key, `findField` (and the typed
accessors built on it, such as `Conn`) returns the value of the first
field with that key in header order, stops scanning at that field —
whatever follows the first match, including duplicates or junk, is never
examined — and reports no error. -/
theorem C10_findField_first_match :
    (∀ (pre : List (List Byte × List Byte)) (k v junk : List Byte) (rb : RecordBase),
      headerFieldDelimiter ∉ k → k.length + 1 + v.length < 2 ^ 32 → wfFields pre k →
      rb.header? = some (encodeHeader pre ++ (encodeField k v ++ junk)) →
      rb.findField k = .ok v) ∧
    (∀ (pre : List (List Byte × List Byte)) (v junk : List Byte) (rb : RecordBase) (n : Nat),
      wfFields pre (ascii "conn") → 4 + 1 + v.length < 2 ^ 32 →
      rb.header? = some (encodeHeader pre ++ (encodeField (ascii "conn") v ++ junk)) →
      leUint32? v = some n →
      rb.conn = .ok n) := by
  constructor
  · intro pre k v junk rb hk hkv hpre hh
    unfold RecordBase.findField
    rw [hh]
    exact findFieldCore_first pre k v junk hk hkv hpre
  · intro pre v junk rb n hpre hkv hh hu
    have hf := findFieldCore_first pre (ascii "conn") v junk (by decide) hkv hpre
    unfold RecordBase.conn
    rw [hh]
    dsimp only
    unfold connOfHeader findFieldUint32Core
    rw [hf]
    dsimp only
    rw [hu]

set_option maxRecDepth 100000 in
/-- C10 witness: a duplicated `conn` key — the first value (7) wins, the
later duplicate (9) is never reached and no error is reported. -/
theorem C10_findField_first_match_witness :
    ({ Raw := [0, 0, 0, 0] ++
        (encodeHeader [(ascii "topic", ascii "/t")] ++
          (encodeField (ascii "conn") [7, 0, 0, 0] ++ encodeField (ascii "conn") [9, 0, 0, 0])),
       HeaderLen := (encodeHeader [(ascii "topic", ascii "/t")] ++
          (encodeField (ascii "conn") [7, 0, 0, 0] ++
            encodeField (ascii "conn") [9, 0, 0, 0])).length,
       DataLen := 0 } : RecordBase).conn = .ok 7 :=
  C10_findField_first_match.2 [(ascii "topic", ascii "/t")] [7, 0, 0, 0]
    (encodeField (ascii "conn") [9, 0, 0, 0]) _ 7
    (by intro kv hkv; simp at hkv; subst hkv; exact ⟨by decide, by decide, by decide⟩)
    (by decide) (by rfl) (by rfl)

/-- C4 (code bug): a missing `op` field and the legal `hdrlen == 0`
empty header are reported as errors, as the claim states; but a present
`op` field whose value is empty makes `RecordBase.Op` evaluate
`value[0]` on an empty slice — an index-out-of-range panic escapes
`Read` instead of a framing error being returned. -/
theorem C4_empty_op_value_panics :
    (∀ (rb : RecordBase) (hdr : List Byte), rb.header? = some hdr →
      findFieldCore hdr (ascii "op") = .ok [] → rb.op = .panics) ∧
    isPanicRes ((NewDecoder (versionPreamble ++ emptyOpFrame)).read idCfg).1 = true ∧
    errOfRes ((NewDecoder (versionPreamble ++ noOpFrame)).read idCfg).1 =
      some (.fieldNotFound (ascii "op")) ∧
    errOfRes ((NewDecoder (versionPreamble ++ emptyHdrFrame)).read idCfg).1 =
      some (.fieldNotFound (ascii "op")) := by
  refine ⟨?_, ?_, ?_, ?_⟩
  · intro rb hdr hh hof
    rw [op_of_header rb hdr hh]
    unfold opOfHeader
    rw [hof]
  · rw [read_version_step idCfg _ emptyOpFrame rfl (checkVersion_v20 emptyOpFrame)]
    rw [read_frame_opPanics idCfg
      { NewDecoder (versionPreamble ++ emptyOpFrame) with
          reader := emptyOpFrame, checkedVersion := true }
      (encodeField (ascii "op") []) (le32 0) rfl rfl (by rfl) (by decide) opOfHeader_emptyVal]
    rfl
  · rw [read_version_step idCfg _ noOpFrame rfl (checkVersion_v20 noOpFrame)]
    rw [read_frame_opErr idCfg
      { NewDecoder (versionPreamble ++ noOpFrame) with
          reader := noOpFrame, checkedVersion := true }
      (encodeHeader [(ascii "a", ascii "b")]) (le32 0) (.fieldNotFound (ascii "op"))
      rfl rfl (by rfl) (by decide)
      (opOfHeader_notFound _
        (by intro kv h; simp at h; subst h; exact ⟨by decide, by decide, by decide⟩))]
    rfl
  · rw [read_version_step idCfg _ emptyHdrFrame rfl (checkVersion_v20 emptyHdrFrame)]
    rw [read_frame_opErr idCfg
      { NewDecoder (versionPreamble ++ emptyHdrFrame) with
          reader := emptyHdrFrame, checkedVersion := true }
      (encodeHeader []) (le32 0) (.fieldNotFound (ascii "op")) rfl rfl (by rfl) (by decide)
      (opOfHeader_notFound [] (by intro kv h; cases h))]
    rfl

set_option maxRecDepth 100000 in
/-- C4 witness: the general panic statement applied to the concrete
record whose header is the single field `op=` (empty value). -/
theorem C4_empty_op_value_panics_witness :
    ({ Raw := [0, 0, 0, 0] ++ encodeField (ascii "op") [],
       HeaderLen := 7, DataLen := 0 } : RecordBase).op = .panics :=
  C4_empty_op_value_panics.1 _ (encodeField (ascii "op") []) (by rfl)
    (findFieldCore_single (ascii "op") [] (by decide) (by decide))

/-- C8 counterexample: the stream starts with the 14-byte line
`#ROSBAG V2.00\n` — not the 13-byte line `#ROSBAG V2.0\n` — yet the
first `Read` returns a BagHeader record instead of an error. -/
theorem C8_counterexample_lenient_version :
    ascii "#ROSBAG V2.00\n" ≠ versionPreamble ∧
    isOkBagHeader ((NewDecoder (ascii "#ROSBAG V2.00\n" ++ bagHdrFrame)).read idCfg).1 =
      true := by
  constructor
  · decide
  · rw [read_version_step idCfg _ bagHdrFrame rfl (checkVersion_v200 bagHdrFrame)]
    obtain ⟨rb, hbuilt, hh, hd, hH, hD, hread⟩ := read_frame idCfg
      { NewDecoder (ascii "#ROSBAG V2.00\n" ++ bagHdrFrame) with
          reader := bagHdrFrame, checkedVersion := true }
      (encodeField (ascii "op") [OpBagHeader]) [] [] OpBagHeader rfl rfl (by rfl)
      (by decide) (by decide) (opOfHeader_single OpBagHeader) (by decide)
    rw [hread]
    rfl

/-- C8 (amended): version acceptance is by the parsed numeric values of
`fmt.Fscanf(.., "#ROSBAG V%d.%d\n")` compared against 2.0, not by the
exact 13-byte spelling: for *every* digit spelling of the two numbers,
the scan accepts exactly the lines whose values are 2 and 0 and rejects
the others with the unsupported-version error; *every* stream the scan
accepts reads identically to the exact preamble followed by the same
tail; *every* stream the scan rejects makes the first `Read` return the
scan's error and no record, consuming what the scan consumed; the exact
preamble followed by end of input makes the first `Read` return
end-of-stream. The last three conjuncts instantiate this at the
spellings `V2.00`, `V1.2` and a non-matching first line. -/
theorem C8_version_checked_by_value :
    (∀ (maj mnr rest : List Byte) (a b : Nat),
      digitsVal? maj = some a → digitsVal? mnr = some b →
      checkVersion (ascii "#ROSBAG V" ++ (maj ++ (46 :: (mnr ++ (10 :: rest))))) =
        if a = 2 ∧ b = 0 then (none, rest) else (some .unsupportedVersion, rest)) ∧
    (∀ (cfg : Cfg) (stream rest : List Byte),
      checkVersion stream = (none, rest) →
      (NewDecoder stream).read cfg = (NewDecoder (versionPreamble ++ rest)).read cfg) ∧
    (∀ (cfg : Cfg) (stream rest : List Byte) (e : GoErr),
      checkVersion stream = (some e, rest) →
      (NewDecoder stream).read cfg = (.err e, { NewDecoder stream with reader := rest })) ∧
    (∀ (cfg : Cfg) (rest : List Byte),
      (NewDecoder (ascii "#ROSBAG V2.00\n" ++ rest)).read cfg =
        (NewDecoder (versionPreamble ++ rest)).read cfg) ∧
    (∀ (cfg : Cfg) (rest : List Byte),
      ((NewDecoder (ascii "#ROSBAG V1.2\n" ++ rest)).read cfg).1 =
        .err .unsupportedVersion) ∧
    (∀ (cfg : Cfg) (rest : List Byte),
      ((NewDecoder (ascii "not a rosbag\n" ++ rest)).read cfg).1 = .err .versionScan) ∧
    (∀ cfg : Cfg, ((NewDecoder versionPreamble).read cfg).1 = .err .eof) := by
  refine ⟨?_, ?_, ?_, ?_, ?_, ?_, ?_⟩
  · intro maj mnr rest a b hmaj hmin
    exact checkVersion_scan maj mnr a b rest hmaj hmin
  · intro cfg stream rest h
    rw [read_version_step cfg (NewDecoder stream) rest rfl (by exact h),
        read_version_step cfg (NewDecoder (versionPreamble ++ rest)) rest rfl
        (checkVersion_v20 rest)]
    rfl
  · intro cfg stream rest e h
    exact read_version_err cfg (NewDecoder stream) e rest rfl (by exact h)
  · intro cfg rest
    rw [read_version_step cfg (NewDecoder (ascii "#ROSBAG V2.00\n" ++ rest)) rest rfl
        (checkVersion_v200 rest),
        read_version_step cfg (NewDecoder (versionPreamble ++ rest)) rest rfl
        (checkVersion_v20 rest)]
    rfl
  · intro cfg rest
    rw [read_version_err cfg _ .unsupportedVersion rest rfl (checkVersion_v12 rest)]
  · intro cfg rest
    rw [read_version_err cfg _ .versionScan (ascii "not a rosbag\n" ++ rest) rfl
      (checkVersion_junk rest)]
  · intro cfg
    rw [read_version_step cfg _ [] rfl (by exact checkVersion_v20 [])]
    rw [read_nil cfg _ rfl rfl rfl]


/-- C6 counterexample: the first `Read` of `c6stream` fails with
`errInvalidOp` (op `0x09`), yet the second `Read` succeeds and returns
the following ChunkInfo record — the error was not latched. -/
theorem C6_counterexample_error_then_success :
    errOfRes ((readTrace idCfg 2 (NewDecoder c6stream)).1.getD 0 .panics) =
      some .invalidOp ∧
    isOkChunkInfo ((readTrace idCfg 2 (NewDecoder c6stream)).1.getD 1 .panics) = true := by
  have h1 : (NewDecoder c6stream).read idCfg =
      (.err .invalidOp, { reader := chunkInfoFrame, chunkReader := none, checkedVersion := true, conns := [] }) := by
    rw [read_version_step idCfg (NewDecoder c6stream) (badOpFrame ++ chunkInfoFrame) rfl
      (by exact checkVersion_v20 (badOpFrame ++ chunkInfoFrame))]
    obtain ⟨rb, hbuilt, hh, hd, hH, hD, hread⟩ := read_frame idCfg
      { NewDecoder c6stream with reader := badOpFrame ++ chunkInfoFrame, checkedVersion := true }
      (encodeField (ascii "op") [9]) [] chunkInfoFrame 9 rfl rfl (by rfl) (by decide) (by decide)
      (opOfHeader_single 9) (by decide)
    rw [hread]
    rfl
  obtain ⟨rb2, hbuilt2, hh2, hd2, hH2, hD2, hread2⟩ := read_frame idCfg
    { reader := chunkInfoFrame, chunkReader := none, checkedVersion := true, conns := [] }
    (encodeField (ascii "op") [OpChunkInfo]) [] [] OpChunkInfo rfl rfl (by rfl) (by decide)
    (by decide) (opOfHeader_single OpChunkInfo) (by decide)
  have h20 : (readTrace idCfg 2 (NewDecoder c6stream)).1 =
      [((NewDecoder c6stream).read idCfg).1,
        ((((NewDecoder c6stream).read idCfg).2).read idCfg).1] := rfl
  constructor
  · rw [h20, h1]
    rfl
  · rw [h20, h1]
    dsimp only
    rw [hread2]
    rfl

/-- C6 (amended): an error other than end-of-stream is returned to the
caller but is *not* latched — no error state is stored; the decoder
stands right after the offending frame and the next `Read` proceeds
normally from there (shown concretely by the counterexample's second
successful read). Stated for the invalid-op error here. -/
theorem C6_errors_not_latched (cfg : Cfg) (d : Decoder) (hdr data rest : List Byte) (op : Nat)
    (hver : d.checkedVersion = true) (hchunk : d.chunkReader = none)
    (hreader : d.reader = encodeFrame hdr data ++ rest)
    (hhl : hdr.length < 2 ^ 32) (hdl : data.length < 2 ^ 32)
    (hop : opOfHeader hdr = .ok op)
    (hn3 : op ≠ OpBagHeader) (hn5 : op ≠ OpChunk) (hn7 : op ≠ OpConnection)
    (hn2 : op ≠ OpMessageData) (hn4 : op ≠ OpIndexData) (hn6 : op ≠ OpChunkInfo) :
    d.read cfg = (.err .invalidOp, { d with reader := rest }) := by
  obtain ⟨rb, hbuilt, hh, hd, hH, hD, hread⟩ :=
    read_frame cfg d hdr data rest op hver hchunk hreader hhl hdl hop hn5
  rw [hread]
  have hdisp : dispatchOp op d.conns rb = (.err .invalidOp, d.conns) := by
    unfold dispatchOp
    rw [if_neg hn3, if_neg hn7, if_neg hn2, if_neg hn4, if_neg hn6]
  rw [hdisp]

/-- C6 witness: the amended statement at the concrete unknown-op frame
`badOpFrame`: the error is returned once and the state simply stands
after the frame. -/
theorem C6_errors_not_latched_witness :
    ({ reader := badOpFrame, chunkReader := none, checkedVersion := true, conns := [] } : Decoder).read idCfg =
      (.err .invalidOp, { reader := [], chunkReader := none, checkedVersion := true, conns := [] }) :=
  C6_errors_not_latched idCfg
    { reader := badOpFrame, chunkReader := none, checkedVersion := true, conns := [] }
    (encodeField (ascii "op") [9]) [] [] 9 rfl rfl (by rfl) (by decide) (by decide)
    (opOfHeader_single 9) (by decide) (by decide) (by decide) (by decide) (by decide)
    (by decide)

/-- C9 counterexample: `c9stream` announces a chunk whose `datalen` is
8192 but whose body bytes never reach the record buffer (4096 bytes,
never grown for the body): `Read` succeeds with `DataLen = 8192`, yet
the `Data()` slice `raw[off : off+8192]` is out of range — a panic, not
a `datalen`-sized slice. -/
theorem C9_counterexample_chunk_data_panics :
    ∃ rb : RecordBase,
      ((NewDecoder c9stream).read idCfg).1 = .ok (.chunk rb) ∧
      rb.HeaderLen = 28 ∧ rb.DataLen = 8192 ∧ rb.header? = some chunkHdrNone ∧
      rb.data? = none := by
  rw [read_version_step idCfg (NewDecoder c9stream)
    (le32 chunkHdrNone.length ++ (chunkHdrNone ++ le32 8192)) rfl
    (by exact checkVersion_v20 (le32 chunkHdrNone.length ++ (chunkHdrNone ++ le32 8192)))]
  obtain ⟨rb, hbuilt, hH, hD, hh, hread⟩ := read_chunk idCfg
    { NewDecoder c9stream with
        reader := le32 chunkHdrNone.length ++ (chunkHdrNone ++ le32 8192),
        checkedVersion := true }
    chunkHdrNone 8192 [] (ascii "none") rfl rfl (by rfl) (by decide) (by decide)
    opOfHeader_chunkHdrNone compressionOfHeader_chunkHdrNone (Or.inl rfl)
  have hlen : rb.Raw.length ≤
      max freshRecord.Raw.length (2 * (lenInBytes + chunkHdrNone.length + lenInBytes)) := by
    rw [hbuilt]
    refine recChain_len freshRecord (le32 chunkHdrNone.length) chunkHdrNone (le32 8192)
      (le32_length _) (le32_length _) ?_
    rw [show (recWithLen freshRecord (le32 chunkHdrNone.length)).HeaderLen =
        leUint32 (le32 chunkHdrNone.length) from rfl]
    rw [leUint32_le32 _ (by decide)]
  have hfresh : freshRecord.Raw.length = 4096 := by
    show (List.replicate initialRecordSize (0 : Byte)).length = 4096
    rw [List.length_replicate]
    rfl
  have h28 : chunkHdrNone.length = 28 := rfl
  have hlib : lenInBytes = 4 := rfl
  refine ⟨rb, ?_, by rw [hH]; exact h28, hD, hh, ?_⟩
  · rw [hread]
  · unfold RecordBase.data? goSlice
    rw [hH, hD]
    apply if_neg
    rintro ⟨-, h2⟩
    omega

/-- C9 (amended): every record a successful `Read` returns has a header
slice of exactly `HeaderLen` bytes; a data slice of exactly `DataLen`
bytes is guaranteed only for non-chunk records — for chunk records the
body was deliberately not read and `Data()` can panic, as the
counterexample shows. -/
theorem C9_buffer_invariants (cfg : Cfg) (d : Decoder) (rec : Record)
    (h : (d.read cfg).1 = .ok rec) :
    (∃ hdr, (recordBaseOf rec).header? = some hdr ∧
      (recordBaseOf rec).HeaderLen = hdr.length) ∧
    (isChunkRec rec = false →
      ∃ data, (recordBaseOf rec).data? = some data ∧
        (recordBaseOf rec).DataLen = data.length) :=
  read_ok_buffer cfg d rec h

/-- A concrete successful read returning a BagHeader record, feeding the
C9 witness. -/
theorem bagRead_concrete :
    ((NewDecoder (versionPreamble ++ bagHdrFrame)).read idCfg).1 =
      .ok (.bagHeader bagRec) := by
  rw [read_version_step idCfg (NewDecoder (versionPreamble ++ bagHdrFrame)) bagHdrFrame rfl
    (checkVersion_v20 bagHdrFrame)]
  obtain ⟨rb, hbuilt, hh, hd, hH, hD, hread⟩ := read_frame idCfg
    { NewDecoder (versionPreamble ++ bagHdrFrame) with
        reader := bagHdrFrame, checkedVersion := true }
    (encodeField (ascii "op") [OpBagHeader]) [] [] OpBagHeader rfl rfl (by rfl) (by decide)
    (by decide) (opOfHeader_single OpBagHeader) (by decide)
  rw [hread, hbuilt]
  rfl

/-- C9 witness: the buffer invariants at the concrete BagHeader record
returned by reading `versionPreamble ++ bagHdrFrame`. -/
theorem C9_buffer_invariants_witness :
    (∃ hdr, (recordBaseOf (.bagHeader bagRec)).header? = some hdr ∧
      (recordBaseOf (.bagHeader bagRec)).HeaderLen = hdr.length) ∧
    (isChunkRec (.bagHeader bagRec) = false →
      ∃ data, (recordBaseOf (.bagHeader bagRec)).data? = some data ∧
        (recordBaseOf (.bagHeader bagRec)).DataLen = data.length) :=
  C9_buffer_invariants idCfg (NewDecoder (versionPreamble ++ bagHdrFrame)) _ bagRead_concrete


/-- C2: a MessageData record reports `errNotFoundConnectionHeader`
exactly when its `conn` id is absent from the registry; otherwise it is
attached to the registry entry. The registry after any read sequence
(outer stream and chunk reads alike update it through the same
dispatch) holds, for each id, exactly the header of the most recently
returned Connection record with that id — a re-registered id replaces
the earlier entry. A `Read` meeting a MessageData frame behaves
accordingly. -/
theorem C2_messageData_connection_lookup :
    (∀ (conns : List (Nat × ConnectionHeader)) (rb : RecordBase) (c : Nat),
      rb.conn = .ok c →
      (((handleMessageData conns rb).1 = .err .notFoundConnectionHeader) ↔
        connsLookup conns c = none) ∧
      (∀ hdr, connsLookup conns c = some hdr →
        (handleMessageData conns rb).1 = .ok (.messageData rb c hdr))) ∧
    (∀ (cfg : Cfg) (n : Nat) (d0 : Decoder) (c : Nat), d0.conns = [] →
      connsLookup (readTrace cfg n d0).2.conns c = lastConn (readTrace cfg n d0).1 c) ∧
    (∀ (cfg : Cfg) (d : Decoder) (hdr data rest : List Byte) (c : Nat),
      d.checkedVersion = true → d.chunkReader = none →
      d.reader = encodeFrame hdr data ++ rest →
      hdr.length < 2 ^ 32 → data.length < 2 ^ 32 →
      opOfHeader hdr = .ok OpMessageData → connOfHeader hdr = .ok c →
      (connsLookup d.conns c = none →
        (d.read cfg).1 = .err .notFoundConnectionHeader) ∧
      (∀ ch, connsLookup d.conns c = some ch →
        ∃ rb, (d.read cfg).1 = .ok (.messageData rb c ch))) := by
  refine ⟨?_, ?_, ?_⟩
  · intro conns rb c hconn
    unfold handleMessageData
    rw [hconn]
    dsimp only
    constructor
    · cases hl : connsLookup conns c <;> simp
    · intro hdr hl
      rw [hl]
  · intro cfg n d0 c h0
    rw [readTrace_registry cfg n d0, h0, connsLookup_registryOf]
    cases lastConn ((readTrace cfg n d0).1) c <;> rfl
  · intro cfg d hdr data rest c hver hchunk hreader hhl hdl hop hconn
    obtain ⟨rb, hbuilt, hh, hd, hH, hD, hread⟩ :=
      read_frame cfg d hdr data rest OpMessageData hver hchunk hreader hhl hdl hop (by decide)
    have hrbconn : rb.conn = .ok c := by
      rw [conn_of_header rb hdr hh]
      exact hconn
    have hdisp : dispatchOp OpMessageData d.conns rb = handleMessageData d.conns rb := by
      unfold dispatchOp
      rw [if_neg (by decide), if_neg (by decide), if_pos rfl]
    constructor
    · intro hnone
      rw [hread]
      dsimp only
      rw [hdisp]
      unfold handleMessageData
      rw [hrbconn]
      dsimp only
      rw [hnone]
    · intro ch hsome
      refine ⟨rb, ?_⟩
      rw [hread]
      dsimp only
      rw [hdisp]
      unfold handleMessageData
      rw [hrbconn]
      dsimp only
      rw [hsome]

/-- C2 witness: the read-level statement at a concrete MessageData frame
for conn id 7 against the one-entry registry `[(7, ch0)]`. -/
theorem C2_messageData_connection_lookup_witness :
    (connsLookup [(7, ch0)] 7 = none →
      (({ reader := msgFrame7, chunkReader := none, checkedVersion := true, conns := [(7, ch0)] } : Decoder).read idCfg).1 =
        .err .notFoundConnectionHeader) ∧
    (∀ ch, connsLookup [(7, ch0)] 7 = some ch →
      ∃ rb, (({ reader := msgFrame7, chunkReader := none, checkedVersion := true, conns := [(7, ch0)] } : Decoder).read idCfg).1 =
        .ok (.messageData rb 7 ch)) :=
  C2_messageData_connection_lookup.2.2 idCfg
    { reader := msgFrame7, chunkReader := none, checkedVersion := true, conns := [(7, ch0)] }
    msgHdr7 [] [] 7 rfl rfl (by rfl) (by decide) (by decide) opOfHeader_msgHdr7
    connOfHeader_msgHdr7

/-- C1: reading a well-formed chunk frame consumes only the frame head
(header and datalen; `DataLen` is set but the body never enters the
record buffer), splits the `datalen` body bytes off the primary reader,
installs them — decompressed per the `compression` value — as the chunk
sub-reader, and returns the chunk record; then, if the installed body
frames `recs` records, the following `recs.length` reads return exactly
those records in order, the sub-reader ends empty, and the next read
falls through to a primary-stream record decode with the sub-reader
discarded. -/
theorem C1_chunk_install_and_drain :
    (∀ (cfg : Cfg) (d : Decoder) (hdr : List Byte) (bodyLen : Nat) (rest comp : List Byte),
      d.checkedVersion = true → d.chunkReader = none →
      d.reader = le32 hdr.length ++ (hdr ++ (le32 bodyLen ++ rest)) →
      hdr.length < 2 ^ 32 → bodyLen < 2 ^ 32 →
      opOfHeader hdr = .ok OpChunk →
      compressionOfHeader hdr = .ok comp →
      comp = ascii "none" ∨ comp = ascii "bz2" ∨ comp = ascii "lz4" →
      ∃ rb : RecordBase,
        rb = builtChunkRec freshRecord hdr bodyLen ∧
        rb.HeaderLen = hdr.length ∧ rb.DataLen = bodyLen ∧ rb.header? = some hdr ∧
        d.read cfg = (.ok (.chunk rb),
          { d with reader := rest.drop bodyLen,
                   chunkReader := some (chunkDecompress cfg comp (rest.take bodyLen)) })) ∧
    (∀ (cfg : Cfg) (fuel : Nat) (d : Decoder) (bytes : List Byte) (recs : List Record)
      (conns' : List (Nat × ConnectionHeader)),
      d.checkedVersion = true → d.chunkReader = some bytes →
      decodeAll fuel d.conns bytes = some (recs, conns') →
      readTrace cfg recs.length d =
        (recs.map Res.ok, { d with chunkReader := some [], conns := conns' }) ∧
      ({ d with chunkReader := some [], conns := conns' } : Decoder).read cfg =
        decodeRecord cfg { d with chunkReader := none, conns := conns' } .primary
          freshRecord) := by
  constructor
  · intro cfg d hdr bodyLen rest comp hver hchunk hreader hhl hbl hop hcomp hknown
    exact read_chunk cfg d hdr bodyLen rest comp hver hchunk hreader hhl hbl hop hcomp hknown
  · intro cfg fuel d bytes recs conns' hver hc hall
    refine ⟨readTrace_chunkDrain cfg fuel d bytes recs conns' hver hc hall, ?_⟩
    exact read_chunkDrained cfg _ hver rfl

/-- C1 witness: the install step at the concrete chunk of `c1stream`
(compression `none`, body framing a BagHeader and an IndexData record),
and the drain of that body: both records come back in order, then the
drained sub-reader falls through to the primary stream. -/
theorem C1_chunk_install_and_drain_witness :
    (∃ rb : RecordBase,
      rb = builtChunkRec freshRecord chunkHdrNone c1body.length ∧
      rb.HeaderLen = chunkHdrNone.length ∧ rb.DataLen = c1body.length ∧
      rb.header? = some chunkHdrNone ∧
      dC1.read idCfg = (.ok (.chunk rb),
        { dC1 with reader := (c1body ++ chunkInfoFrame).drop c1body.length,
                   chunkReader := some (chunkDecompress idCfg (ascii "none")
                     ((c1body ++ chunkInfoFrame).take c1body.length)) })) ∧
    (readTrace idCfg ([Record.bagHeader bagRec, Record.indexData idxRec]).length dC2 =
      ([Record.bagHeader bagRec, Record.indexData idxRec].map Res.ok,
        { dC2 with chunkReader := some [], conns := [] }) ∧
      ({ dC2 with chunkReader := some [], conns := [] } : Decoder).read idCfg =
        decodeRecord idCfg { dC2 with chunkReader := none, conns := [] } .primary
          freshRecord) :=
  ⟨C1_chunk_install_and_drain.1 idCfg dC1 chunkHdrNone c1body.length
      (c1body ++ chunkInfoFrame) (ascii "none") rfl rfl (by rfl) (by decide) (by decide)
      opOfHeader_chunkHdrNone compressionOfHeader_chunkHdrNone (Or.inl rfl),
    C1_chunk_install_and_drain.2 idCfg 3 dC2 c1body
      [Record.bagHeader bagRec, Record.indexData idxRec] [] rfl rfl (by exact c1_decodeAll)⟩


/-- C5: the fast (aliasing) and the slow (copying/byte-swapping) slice
decoder families agree — with the host byte order equal to the
little-endian file order for the fast family, which is what
`initFieldSliceDecoder` installs — on every primitive element kind:
the 1-byte and variable-width kinds share one function, and for each
fixed width W ∈ {2,4,8} kind, whenever the announced span of L elements
fits in the input (`fieldDecodeLength` succeeded and L*W bytes remain
past the prefix), both produce equal element sequences and equal
consumed offsets. -/
theorem C5_fast_slow_slice_agree :
    (fieldDecodeSliceHelper true .bool = fieldDecodeSliceHelper false .bool) ∧
    (fieldDecodeSliceHelper true .int8 = fieldDecodeSliceHelper false .int8) ∧
    (fieldDecodeSliceHelper true .uint8 = fieldDecodeSliceHelper false .uint8) ∧
    (fieldDecodeSliceHelper true .string = fieldDecodeSliceHelper false .string) ∧
    (fieldDecodeSliceHelper true .time = fieldDecodeSliceHelper false .time) ∧
    (fieldDecodeSliceHelper true .duration = fieldDecodeSliceHelper false .duration) ∧
    (∀ (raw : List Byte) (length : Int) (lo : Nat × Nat),
      fieldDecodeLength raw length = some lo → lo.2 + lo.1 * 2 ≤ raw.length →
      fieldDecodeSliceHelper true .int16 raw length =
        fieldDecodeSliceHelper false .int16 raw length) ∧
    (∀ (raw : List Byte) (length : Int) (lo : Nat × Nat),
      fieldDecodeLength raw length = some lo → lo.2 + lo.1 * 2 ≤ raw.length →
      fieldDecodeSliceHelper true .uint16 raw length =
        fieldDecodeSliceHelper false .uint16 raw length) ∧
    (∀ (raw : List Byte) (length : Int) (lo : Nat × Nat),
      fieldDecodeLength raw length = some lo → lo.2 + lo.1 * 4 ≤ raw.length →
      fieldDecodeSliceHelper true .int32 raw length =
        fieldDecodeSliceHelper false .int32 raw length) ∧
    (∀ (raw : List Byte) (length : Int) (lo : Nat × Nat),
      fieldDecodeLength raw length = some lo → lo.2 + lo.1 * 4 ≤ raw.length →
      fieldDecodeSliceHelper true .uint32 raw length =
        fieldDecodeSliceHelper false .uint32 raw length) ∧
    (∀ (raw : List Byte) (length : Int) (lo : Nat × Nat),
      fieldDecodeLength raw length = some lo → lo.2 + lo.1 * 8 ≤ raw.length →
      fieldDecodeSliceHelper true .int64 raw length =
        fieldDecodeSliceHelper false .int64 raw length) ∧
    (∀ (raw : List Byte) (length : Int) (lo : Nat × Nat),
      fieldDecodeLength raw length = some lo → lo.2 + lo.1 * 8 ≤ raw.length →
      fieldDecodeSliceHelper true .uint64 raw length =
        fieldDecodeSliceHelper false .uint64 raw length) ∧
    (∀ (raw : List Byte) (length : Int) (lo : Nat × Nat),
      fieldDecodeLength raw length = some lo → lo.2 + lo.1 * 4 ≤ raw.length →
      fieldDecodeSliceHelper true .float32 raw length =
        fieldDecodeSliceHelper false .float32 raw length) ∧
    (∀ (raw : List Byte) (length : Int) (lo : Nat × Nat),
      fieldDecodeLength raw length = some lo → lo.2 + lo.1 * 8 ≤ raw.length →
      fieldDecodeSliceHelper true .float64 raw length =
        fieldDecodeSliceHelper false .float64 raw length) := by
  refine ⟨rfl, rfl, rfl, rfl, rfl, rfl, ?_, ?_, ?_, ?_, ?_, ?_, ?_, ?_⟩
  · intro raw length lo hlen hsuff
    exact sliceFastSlow 2 (by left; rfl) (fun u => .vInt16 (toSigned 16 u)) raw length lo
      hlen hsuff
  · intro raw length lo hlen hsuff
    exact sliceFastSlow 2 (by left; rfl) (fun u => .vUint16 u) raw length lo hlen hsuff
  · intro raw length lo hlen hsuff
    exact sliceFastSlow 4 (by right; left; rfl) (fun u => .vInt32 (toSigned 32 u)) raw length
      lo hlen hsuff
  · intro raw length lo hlen hsuff
    exact sliceFastSlow 4 (by right; left; rfl) (fun u => .vUint32 u) raw length lo hlen hsuff
  · intro raw length lo hlen hsuff
    exact sliceFastSlow 8 (by right; right; rfl) (fun u => .vInt64 (toSigned 64 u)) raw length
      lo hlen hsuff
  · intro raw length lo hlen hsuff
    exact sliceFastSlow 8 (by right; right; rfl) (fun u => .vUint64 u) raw length lo hlen hsuff
  · intro raw length lo hlen hsuff
    exact sliceFastSlow 4 (by right; left; rfl) (fun u => .vFloat32bits u) raw length lo
      hlen hsuff
  · intro raw length lo hlen hsuff
    exact sliceFastSlow 8 (by right; right; rfl) (fun u => .vFloat64bits u) raw length lo
      hlen hsuff

/-- C3 (code bug): the slow byte-swapping slice family reads elements
with no bounds check. On the body `<u32LE 2><2 bytes>` against `int32[]
x`, the length prefix passes `fieldDecodeLength` (it checks the element
*count*, not count×size, against the remaining bytes), and the slow
loop's second `endian.Uint32(raw[off:])` reads past the end — a runtime
panic — while the fast family returns the invalid-format error for the
same input. -/
theorem C3_slow_slice_reads_out_of_bounds :
    decodeMessageDataMap false [c3def] 2 c3def [2, 0, 0, 0, 1, 0] = .panics ∧
    decodeMessageDataMap true [c3def] 2 c3def [2, 0, 0, 0, 1, 0] = .err .invalidFormat := by
  constructor
  · rw [show (2 : Nat) = 1 + 1 from rfl, decodeMessageDataMap]
    rw [show c3def.Fields = c3field :: [] from rfl, decodeFieldsMap]
    rw [show c3field.Value = (none : Option Rosbag.Value) from rfl]
    dsimp only
    rw [if_pos (by decide)]
    rw [show decodeFieldBasic false c3field [2, 0, 0, 0, 1, 0] =
      (DRes.panics : DRes (Rosbag.Value × List Byte)) from rfl]
  · rw [show (2 : Nat) = 1 + 1 from rfl, decodeMessageDataMap]
    rw [show c3def.Fields = c3field :: [] from rfl, decodeFieldsMap]
    rw [show c3field.Value = (none : Option Rosbag.Value) from rfl]
    dsimp only
    rw [if_pos (by decide)]
    rw [show decodeFieldBasic true c3field [2, 0, 0, 0, 1, 0] =
      (DRes.err .invalidFormat : DRes (Rosbag.Value × List Byte)) from rfl]

/-- C7: a field carrying a constant value is emitted into the target
under the field's name while consuming zero body bytes, so following
fields decode from the unchanged position; concretely, `int32 STATE =
-1` then `int32 x` parses to a schema whose STATE field carries the
constant −1, and decoding the 4-byte body `FF FF FF FF` yields both
STATE = −1 (emitted, no bytes) and x = −1 (from the body), consuming
exactly the body. -/
theorem C7_constants_consume_nothing :
    (∀ (fastMode : Bool) (env : List MessageDefinition) (fuel : Nat)
      (f : MessageFieldDefinition) (fs : List MessageFieldDefinition)
      (raw : List Byte) (m : List (List Byte × Rosbag.Value)) (v : Rosbag.Value),
      f.Value = some v →
      decodeFieldsMap fastMode env fuel (f :: fs) raw m =
        decodeFieldsMap fastMode env fuel fs raw ((f.Name, v) :: m)) ∧
    unmarshall c7src = .ok ([c7def], none) ∧
    decodeMessageDataMap true [c7def] 2 c7def [255, 255, 255, 255] =
      .ok ([], [(ascii "x", .vInt32 (-1)), (ascii "STATE", .vInt32 (-1))]) := by
  refine ⟨?_, ?_, ?_⟩
  · intro fastMode env fuel f fs raw m v hv
    rw [decodeFieldsMap, hv]
  · rfl
  · rw [show (2 : Nat) = 1 + 1 from rfl, decodeMessageDataMap]
    rw [show c7def.Fields = c7fieldState :: c7fieldX :: [] from rfl, decodeFieldsMap]
    rw [show c7fieldState.Value = some (Rosbag.Value.vInt32 (-1)) from rfl]
    dsimp only
    rw [decodeFieldsMap]
    rw [show c7fieldX.Value = (none : Option Rosbag.Value) from rfl]
    dsimp only
    rw [if_pos (by decide)]
    rw [show decodeFieldBasic true c7fieldX [255, 255, 255, 255] =
      (DRes.ok (Rosbag.Value.vInt32 (-1), ([] : List Byte)) :
        DRes (Rosbag.Value × List Byte)) from rfl]
    dsimp only
    rw [decodeFieldsMap]
    rfl

end Rosbag
